import Mathlib

set_option autoImplicit false
set_option maxRecDepth 8000

/-!
Verification of the core utility components of the Quick-AI jump-to-editor
VSCode plugin: the cache manager (TTL expiry + LRU eviction), the editor
configuration registry, the cross-platform command builder / executor, and
the debounce utility.

Modelling conventions (shallow embedding of the TypeScript source):
  * `Date.now()` becomes an explicit `now : Int` parameter (milliseconds).
  * JavaScript `Map`s become insertion-ordered association lists
    (`List (String × β)`): `Map.set` updates an existing key in place and
    appends a fresh key at the end; `Map.delete` removes the key; iteration
    order is list order.
  * Stateful methods become functions `… → State → Result × State`.
  * Floating-point metrics (`cacheHitRate`, `averageExecutionTime`) and log
    output are not modelled; the integer statistics counters are.
  * `setTimeout` timers are modelled by recording the scheduled fire instant;
    a timer callback is modelled as running exactly at that instant.
-/

/-- The single-quote character (codepoint 39), used when modelling the shell
quoting performed by the command builder. -/
def squoteChar : Char := Char.ofNat 39

/-- The single-quote character as a one-character string. -/
def squote : String := String.mk [squoteChar]

/-- The backslash character (codepoint 92). -/
def backslashChar : Char := Char.ofNat 92

/-- JS-style `String.prototype.trim`: drop whitespace from both ends. -/
def jsTrim (s : String) : String :=
  String.mk (((s.data.dropWhile Char.isWhitespace).reverse.dropWhile
    Char.isWhitespace).reverse)

/-- Lookup in an insertion-ordered association list (models `Map.get`):
returns the value at the first matching key. -/
def aLookup {β : Type} : List (String × β) → String → Option β
  | [], _ => none
  | (k₁, v) :: t, k => if k₁ = k then some v else aLookup t k

/-- Update-or-append in an insertion-ordered association list (models
`Map.set`): an existing key keeps its position, a new key is appended. -/
def aSet {β : Type} : List (String × β) → String → β → List (String × β)
  | [], k, v => [(k, v)]
  | (k₁, v₁) :: t, k, v =>
      if k₁ = k then (k, v) :: t else (k₁, v₁) :: aSet t k v

/-- Removal from an association list (models `Map.delete`; keys of a JS map
are unique, so removing all occurrences agrees with deleting the key). -/
def aErase {β : Type} : List (String × β) → String → List (String × β)
  | [], _ => []
  | (k₁, v) :: t, k => if k₁ = k then aErase t k else (k₁, v) :: aErase t k

/-- Key-presence test (models `Map.has`). -/
def aHas {β : Type} (l : List (String × β)) (k : String) : Bool :=
  (aLookup l k).isSome

/-! ## Cache manager (`cacheManager.ts`, class `CacheManager`) -/

/-- A cache entry, as stored by `CacheManager.set`. -/
structure CacheEntry (α : Type) where
  data : α
  timestamp : Int
  ttl : Int
  key : String
deriving DecidableEq, Repr

/-- The cache configuration (`CacheManagerConfig`). -/
structure CacheManagerConfig where
  settingsCacheTtl : Int
  projectPathCacheTtl : Int
  editorStateCacheTtl : Int
  maxCacheSize : Nat
deriving DecidableEq, Repr

/-- `CacheManager.DEFAULT_CONFIG`. -/
def defaultCacheConfig : CacheManagerConfig :=
  { settingsCacheTtl := 1000
    projectPathCacheTtl := 5000
    editorStateCacheTtl := 5000
    maxCacheSize := 100 }

/-- The integer statistics counters of the cache manager (`this.stats`). -/
structure CacheStats where
  totalRequests : Nat
  cacheHits : Nat
  cacheMisses : Nat
  evictions : Nat
deriving DecidableEq, Repr

/-- The mutable state of a `CacheManager` instance: the entry map, the
access-time map used for LRU eviction, and the statistics counters. -/
structure CMState (α : Type) where
  cache : List (String × CacheEntry α)
  accessTimes : List (String × Int)
  stats : CacheStats
deriving DecidableEq, Repr

namespace CacheManager

/-- A freshly constructed cache manager: both maps empty, zeroed stats. -/
def initState {α : Type} : CMState α := ⟨[], [], ⟨0, 0, 0, 0⟩⟩

/-- `CacheManager.isExpired`: `Date.now() - entry.timestamp > entry.ttl`. -/
def isExpired {α : Type} (now : Int) (e : CacheEntry α) : Bool :=
  now - e.timestamp > e.ttl

/-- The scan loop of `evictLeastRecentlyUsed`: starting from
`(oldestKey = undefined, oldestTime = Date.now())`, replace the candidate
whenever a strictly smaller access time is seen. -/
def oldestScan (init : Option String × Int) (l : List (String × Int)) :
    Option String × Int :=
  l.foldl (fun st p => if p.2 < st.2 then (some p.1, p.2) else st) init

/-- `CacheManager.delete`: remove the key from both maps; the returned flag
reports whether the entry map contained the key. -/
def delete {α : Type} (k : String) (s : CMState α) : Bool × CMState α :=
  (aHas s.cache k,
   { s with cache := aErase s.cache k, accessTimes := aErase s.accessTimes k })

/-- `CacheManager.evictLeastRecentlyUsed`: delete the first key whose access
time is strictly the smallest seen (and strictly below `Date.now()`); if no
access time is strictly below `now`, nothing is evicted. -/
def evictLeastRecentlyUsed {α : Type} (now : Int) (s : CMState α) : CMState α :=
  match (oldestScan (none, now) s.accessTimes).1 with
  | some k =>
      let s₁ := (delete k s).2
      { s₁ with stats := { s₁.stats with evictions := s₁.stats.evictions + 1 } }
  | none => s

/-- `CacheManager.set`: evict the LRU entry when the store is at capacity and
the key is new, then store the entry and record its access time. The JS
expression `ttl || settingsCacheTtl` falls back to the default both when
`ttl` is omitted and when it is `0` (falsy). -/
def set {α : Type} (cfg : CacheManagerConfig) (now : Int) (k : String) (d : α)
    (ttl : Option Int) (s : CMState α) : CMState α :=
  let s₁ :=
    if cfg.maxCacheSize ≤ s.cache.length ∧ ¬ aHas s.cache k = true then
      evictLeastRecentlyUsed now s
    else s
  let t : Int :=
    match ttl with
    | some t => if t = 0 then cfg.settingsCacheTtl else t
    | none => cfg.settingsCacheTtl
  { s₁ with
      cache := aSet s₁.cache k ⟨d, now, t, k⟩
      accessTimes := aSet s₁.accessTimes k now }

/-- `CacheManager.get`: absent or expired keys miss (an expired entry is
deleted as a side effect); a hit refreshes the access time and returns the
stored data. -/
def get {α : Type} (now : Int) (k : String) (s : CMState α) :
    Option α × CMState α :=
  let s₀ := { s with stats := { s.stats with totalRequests := s.stats.totalRequests + 1 } }
  match aLookup s₀.cache k with
  | none =>
      (none, { s₀ with stats := { s₀.stats with cacheMisses := s₀.stats.cacheMisses + 1 } })
  | some e =>
      if isExpired now e then
        let s₁ := (delete k s₀).2
        (none, { s₁ with stats := { s₁.stats with cacheMisses := s₁.stats.cacheMisses + 1 } })
      else
        (some e.data,
         { s₀ with
             accessTimes := aSet s₀.accessTimes k now
             stats := { s₀.stats with cacheHits := s₀.stats.cacheHits + 1 } })

/-- `CacheManager.has`: same expiry semantics as `get` (an expired entry is
deleted as a side effect) but without touching access times or stats. -/
def has {α : Type} (now : Int) (k : String) (s : CMState α) :
    Bool × CMState α :=
  match aLookup s.cache k with
  | none => (false, s)
  | some e =>
      if isExpired now e then (false, (delete k s).2) else (true, s)

/-- `CacheManager.size`. -/
def size {α : Type} (s : CMState α) : Nat := s.cache.length

end CacheManager

/-! ## Configuration manager (`configManager.ts`, class `ConfigManager`)

The editor registry persisted in the host settings store is modelled as a
list of `EditorConfig` records. `uuidv4()` id generation is modelled by a
fresh-id counter carried in the registry state (uuids are fresh by
construction). -/

/-- The `EditorType` enum. -/
inductive EditorType
  | idea
  | pycharm
  | webstorm
  | jetbrains
  | custom
deriving DecidableEq, Repr

/-- An editor configuration record (`EditorConfig`); the source field
`type` is called `kind` here. -/
structure EditorConfig where
  id : Nat
  name : String
  path : String
  isDefault : Bool
  kind : EditorType
  createdAt : Int
  updatedAt : Int
deriving DecidableEq, Repr

/-- The persisted registry plus the fresh-id counter modelling `uuidv4`. -/
structure Registry where
  editors : List EditorConfig
  nextId : Nat
deriving DecidableEq, Repr

/-- The input to `addEditor` (an `EditorConfig` without id and timestamps). -/
structure NewEditorInput where
  name : String
  path : String
  isDefault : Bool
  kind : Option EditorType
deriving DecidableEq, Repr

/-- The partial update accepted by `updateEditor`
(`Partial<Omit<EditorConfig, 'id' | 'createdAt'>>`). -/
structure EditorUpdates where
  name : Option String
  path : Option String
  isDefault : Option Bool
  kind : Option EditorType
deriving DecidableEq, Repr

namespace ConfigManager

/-- Naive substring containment, modelling JS `String.prototype.includes`. -/
def containsSub (s pat : String) : Bool :=
  (List.range (s.length + 1)).any (fun i => pat.data.isPrefixOf (s.data.drop i))

/-- `ConfigManager.detectEditorType`. -/
def detectEditorType (editorPath : String) : EditorType :=
  let p := editorPath.toLower
  if containsSub p "idea" then .idea
  else if containsSub p "pycharm" then .pycharm
  else if containsSub p "webstorm" then .webstorm
  else if containsSub p "jetbrains" then .jetbrains
  else .custom

/-- `ConfigManager.validateEditorConfig` reduced to its `isValid` bit: the
name and the path must be non-empty after trimming (the recorded warnings do
not influence validity). -/
def validEditorConfig (name path : String) : Bool :=
  !(jsTrim name == "") && !(jsTrim path == "")

/-- `ConfigManager.addEditor`. On a validation failure or a duplicate path
the registry is unchanged (the thrown error is caught and logged). The first
editor ever added is forced to be the default. -/
def addEditor (now : Int) (input : NewEditorInput) (r : Registry) : Registry :=
  if !(validEditorConfig input.name input.path) then r
  else if r.editors.any (fun e => e.path == input.path) then r
  else
    let cleared :=
      if input.isDefault then
        r.editors.map (fun e => { e with isDefault := false })
      else r.editors
    let shouldBeDefault := if r.editors.isEmpty then true else input.isDefault
    let newEditor : EditorConfig :=
      { id := r.nextId
        name := input.name
        path := input.path
        isDefault := shouldBeDefault
        kind := input.kind.getD (detectEditorType input.path)
        createdAt := now
        updatedAt := now }
    { editors := cleared ++ [newEditor], nextId := r.nextId + 1 }

/-- Merging an update into an existing editor: `{...original, ...updates}`
with `id`/`createdAt` pinned and `updatedAt := Date.now()`. -/
def applyUpdates (u : EditorUpdates) (now : Int) (e : EditorConfig) :
    EditorConfig :=
  { e with
      name := u.name.getD e.name
      path := u.path.getD e.path
      isDefault := u.isDefault.getD e.isDefault
      kind := u.kind.getD e.kind
      updatedAt := now }

/-- The `forEach` loop of `updateEditor`: clear `isDefault` on every editor
except the one at index `i`. -/
def clearExcept : Nat → List EditorConfig → List EditorConfig
  | _, [] => []
  | 0, h :: t => h :: t.map (fun e => { e with isDefault := false })
  | i + 1, h :: t => { h with isDefault := false } :: clearExcept i t

/-- `ConfigManager.updateEditor`. An unknown id or an invalid merged config
leaves the registry unchanged. When the merged config turns `isDefault` on
(and the original had it off), every other editor has its flag cleared. -/
def updateEditor (now : Int) (editorId : Nat) (u : EditorUpdates)
    (r : Registry) : Registry :=
  match r.editors.findIdx? (fun e => e.id == editorId) with
  | none => r
  | some i =>
    match r.editors.get? i with
    | none => r
    | some original =>
      let updated := applyUpdates u now original
      if !(validEditorConfig updated.name updated.path) then r
      else
        let cleared :=
          if updated.isDefault && !original.isDefault then
            clearExcept i r.editors
          else r.editors
        { r with editors := cleared.set i updated }

/-- `ConfigManager.deleteEditor`. An unknown id leaves the registry
unchanged; when the deleted editor was the default and at least one editor
remains, the first remaining editor is promoted to default. -/
def deleteEditor (editorId : Nat) (r : Registry) : Registry :=
  match r.editors.find? (fun e => e.id == editorId) with
  | none => r
  | some deleted =>
    let remaining := r.editors.filter (fun e => !(e.id == editorId))
    let promoted :=
      if deleted.isDefault then
        match remaining with
        | [] => remaining
        | h :: t => { h with isDefault := true } :: t
      else remaining
    { r with editors := promoted }

/-- `ConfigManager.setDefaultEditor`. When the id is present, the matching
editor gets `isDefault := true` (and a fresh `updatedAt`) and every other
editor gets `isDefault := false`; an unknown id throws before the update is
persisted, so the registry is unchanged. -/
def setDefaultEditor (now : Int) (editorId : Nat) (r : Registry) : Registry :=
  if r.editors.any (fun e => e.id == editorId) then
    { r with
        editors := r.editors.map (fun e =>
          if e.id == editorId then { e with isDefault := true, updatedAt := now }
          else { e with isDefault := false }) }
  else r

/-- `ConfigManager.getDefaultEditor`. -/
def getDefaultEditor (r : Registry) : Option EditorConfig :=
  r.editors.find? (fun e => e.isDefault)

/-- One registry operation, for reasoning about operation sequences. -/
inductive RegOp
  | add (now : Int) (input : NewEditorInput)
  | update (now : Int) (editorId : Nat) (u : EditorUpdates)
  | delete (editorId : Nat)
  | setDefault (now : Int) (editorId : Nat)
deriving DecidableEq, Repr

/-- Apply one registry operation. -/
def applyOp (r : Registry) (op : RegOp) : Registry :=
  match op with
  | .add now input => addEditor now input r
  | .update now editorId u => updateEditor now editorId u r
  | .delete editorId => deleteEditor editorId r
  | .setDefault now editorId => setDefaultEditor now editorId r

/-- Apply a sequence of registry operations in order. -/
def runOps (ops : List RegOp) (r : Registry) : Registry :=
  ops.foldl applyOp r

/-- The initial (empty) registry. -/
def initRegistry : Registry := ⟨[], 0⟩

/-- The number of editors with `isDefault = true`. -/
def countDefaults (l : List EditorConfig) : Nat :=
  (l.filter (fun e => e.isDefault)).length

end ConfigManager

/-! ## Command executor (`commandExecutor.ts`, class `CommandExecutor`) -/

/-- The editor data the executor needs (id, name, path); ids here are the
uuid strings stored in the settings. -/
structure EditorRef where
  id : String
  name : String
  path : String
deriving DecidableEq, Repr

/-- `CommandExecutionParams`; `editor` is an `Option` so that a missing
editor (JS `undefined`) is representable, as `validateExecutionParams`
checks for it. -/
structure CommandExecutionParams where
  editor : Option EditorRef
  filePath : String
  lineNumber : Int
  columnNumber : Option Int
deriving DecidableEq, Repr

/-- `CommandExecutionResult`. -/
structure CommandExecutionResult where
  success : Bool
  command : String
  executionTime : Int
  error : Option String
  processId : Option Int
deriving DecidableEq, Repr

namespace CommandExecutor

/-- `escapeWindowsPath`: `filePath.replace(/\\/g, '\\\\')` — every
backslash is doubled. -/
def escapeWindowsPath (p : String) : String :=
  String.join (p.data.map (fun c =>
    if c = backslashChar then String.mk [backslashChar, backslashChar]
    else String.mk [c]))

/-- The shell idiom a single quote is replaced by in `escapeUnixPath`:
quote, double-quote, quote, double-quote, quote. -/
def unixQuoteIdiom : String := squote ++ "\"" ++ squote ++ "\"" ++ squote

/-- `escapeUnixPath`: each single quote becomes the `unixQuoteIdiom`. -/
def escapeUnixPath (p : String) : String :=
  String.join (p.data.map (fun c =>
    if c = squoteChar then unixQuoteIdiom else String.mk [c]))

/-- The editor path used by a command builder; builders are only invoked
after validation has established that the editor is present. -/
def editorPathOf (p : CommandExecutionParams) : String :=
  (p.editor.map (fun e => e.path)).getD ""

/-- The editor id used for the command cache key. -/
def editorIdOf (p : CommandExecutionParams) : String :=
  (p.editor.map (fun e => e.id)).getD ""

/-- The `win32` command builder:
`"<escaped editor>" --line <n> "<escaped file>"`. -/
def winBuilder (p : CommandExecutionParams) : String :=
  "\"" ++ escapeWindowsPath (editorPathOf p) ++ "\" --line " ++
    toString p.lineNumber ++ " \"" ++ escapeWindowsPath p.filePath ++ "\""

/-- The `darwin`/`linux` command builder:
`nohup '<escaped editor>' --line <n> "<escaped file>" > /dev/null 2>&1 &`. -/
def unixBuilder (p : CommandExecutionParams) : String :=
  "nohup " ++ squote ++ escapeUnixPath (editorPathOf p) ++ squote ++
    " --line " ++ toString p.lineNumber ++ " \"" ++
    escapeUnixPath p.filePath ++ "\" > /dev/null 2>&1 &"

/-- The `default` (fallback) command builder: like `win32` but without path
escaping. -/
def defaultBuilder (p : CommandExecutionParams) : String :=
  "\"" ++ editorPathOf p ++ "\" --line " ++ toString p.lineNumber ++
    " \"" ++ p.filePath ++ "\""

/-- The builder map set up by `initializeCommandBuilders`. -/
def commandBuilders : List (String × (CommandExecutionParams → String)) :=
  [("win32", winBuilder), ("darwin", unixBuilder), ("linux", unixBuilder),
   ("default", defaultBuilder)]

/-- `generateCommandCacheKey`: `command:<editor id>:<platform>` — note that
neither the file path nor the line number is part of the key. -/
def generateCommandCacheKey (platform : String)
    (p : CommandExecutionParams) : String :=
  "command:" ++ editorIdOf p ++ ":" ++ platform

/-- `CommandExecutor.buildCommand`. A cached command is returned as long as
it is truthy (non-empty); otherwise the platform builder (or the `default`
fallback) produces a fresh command which is cached for 1000 ms. `none`
models the `unsupported platform` throw, which the fallback entry makes
unreachable. -/
def buildCommand (cfg : CacheManagerConfig) (platform : String) (now : Int)
    (p : CommandExecutionParams) (s : CMState String) :
    Option String × CMState String :=
  let key := generateCommandCacheKey platform p
  let r := CacheManager.get now key s
  let fresh : CMState String → Option String × CMState String := fun s₁ =>
    match (aLookup commandBuilders platform).orElse
        (fun _ => aLookup commandBuilders "default") with
    | none => (none, s₁)
    | some b =>
        let cmd := b p
        (some cmd, CacheManager.set cfg now key cmd (some 1000) s₁)
  match r.1 with
  | some c => if c = "" then fresh r.2 else (some c, r.2)
  | none => fresh r.2

/-- `validateExecutionParams`: the editor must be present, editor path and
file path non-blank, and the line number at least 1. Returns the success
flag and the error message. -/
def validateExecutionParams (p : CommandExecutionParams) :
    Bool × Option String :=
  match p.editor with
  | none => (false, some "编辑器配置不能为空")
  | some ed =>
      if jsTrim ed.path = "" then (false, some "编辑器路径不能为空")
      else if jsTrim p.filePath = "" then (false, some "文件路径不能为空")
      else if p.lineNumber < 1 then (false, some "行号必须大于等于1")
      else (true, none)

/-- The observable outcome of one `executeJumpCommand` call: the structured
result, whether a child-process launch was attempted, how often the injected
error handler ran, and the cache state afterwards. -/
structure ExecOutcome where
  result : CommandExecutionResult
  launched : Bool
  handlerCalls : Nat
  cacheState : CMState String
deriving Repr

/-- `CommandExecutor.executeJumpCommand`, with the file system
(`pathExists`), the presence of an injected error handler, and the OS spawn
outcome supplied as oracles. Every thrown error is caught by the surrounding
`try`/`catch`, which invokes the error handler once and returns a
`success := false` result; the clock is held constant during the call, so
`executionTime = 0`. -/
def executeJumpCommand (cfg : CacheManagerConfig) (platform : String)
    (pathExists : String → Bool) (handlerSet : Bool)
    (spawnOutcome : Except String Int) (now : Int)
    (p : CommandExecutionParams) (s : CMState String) : ExecOutcome :=
  let fail : String → Bool → CMState String → ExecOutcome := fun msg launched s₁ =>
    { result := { success := false, command := "", executionTime := 0,
                  error := some msg, processId := none }
      launched := launched
      handlerCalls := if handlerSet then 1 else 0
      cacheState := s₁ }
  let v := validateExecutionParams p
  if v.1 = false then fail (v.2.getD "") false s
  else
    match p.editor with
    | none => fail "编辑器配置不能为空" false s
    | some ed =>
      if pathExists ed.path = false then
        fail ("编辑器路径不存在: " ++ ed.path) false s
      else
        match buildCommand cfg platform now p s with
        | (none, s₁) => fail ("不支持的平台: " ++ platform) false s₁
        | (some cmd, s₁) =>
          if cmd = "" then fail "无法构建有效的执行命令" false s₁
          else
            match spawnOutcome with
            | .error e => fail e true s₁
            | .ok pid =>
                { result := { success := true, command := cmd,
                              executionTime := 0, error := none,
                              processId := some pid }
                  launched := true
                  handlerCalls := 0
                  cacheState := s₁ }

end CommandExecutor

/-! ## Debounce utility (`utils/debounce.ts`, `DebounceUtils.debounce`)

The closure state of the debounced wrapper is captured in `DState`. A live
`setTimeout` timer is modelled by its scheduled fire instant
(`timerFire = some F`), and the timer callback (`timerExpired`) is modelled
as running exactly at that instant. `invocations` records every call of the
wrapped function `func` together with the arguments it received
(`none` models `func` being applied to `undefined` arguments). -/

/-- The `DebounceOptions` record. -/
structure DebounceOptions where
  leading : Bool
  trailing : Bool
  maxWait : Option Int
deriving DecidableEq, Repr

/-- The closure state of a debounced wrapper. -/
structure DState (α : Type) where
  timerFire : Option Int
  lastCallTime : Option Int
  lastInvokeTime : Int
  lastArgs : Option α
  invocations : List (Int × Option α)
deriving DecidableEq, Repr

namespace DebounceUtils

variable {α : Type}

/-- The state of a freshly created debounced wrapper
(`lastInvokeTime = 0`, everything else unset). -/
def dinit {α : Type} : DState α :=
  { timerFire := none, lastCallTime := none, lastInvokeTime := 0,
    lastArgs := none, invocations := [] }

/-- `shouldInvoke(time)`: first call ever, a quiet gap of at least `wait`,
time running backwards (`timeSinceLastCall < 0`), or the `maxWait` deferral
bound reached. -/
def shouldInvoke (o : DebounceOptions) (wait : Int) (s : DState α)
    (t : Int) : Bool :=
  match s.lastCallTime with
  | none => true
  | some lc =>
      let timeSinceLastCall := t - lc
      let timeSinceLastInvoke := t - s.lastInvokeTime
      decide (wait ≤ timeSinceLastCall) || decide (timeSinceLastCall < 0) ||
        (match o.maxWait with
         | some m => decide (m ≤ timeSinceLastInvoke)
         | none => false)

/-- `invokeFunc(time)`: apply `func` to `lastArgs`, clear `lastArgs`, and
record the invoke time. -/
def invokeFunc (t : Int) (s : DState α) : DState α :=
  { s with
      lastArgs := none
      lastInvokeTime := t
      invocations := s.invocations ++ [(t, s.lastArgs)] }

/-- `leadingEdge(time)`: record the invoke time, start the `wait` timer, and
invoke immediately only when `leading` is set. -/
def leadingEdge (o : DebounceOptions) (wait : Int) (t : Int)
    (s : DState α) : DState α :=
  let s₁ := { s with lastInvokeTime := t, timerFire := some (t + wait) }
  if o.leading then invokeFunc t s₁ else s₁

/-- `remainingWait(time)` (only evaluated from states where `lastCallTime`
is set; `getD 0` stands for the impossible unset case). -/
def remainingWait (o : DebounceOptions) (wait : Int) (s : DState α)
    (t : Int) : Int :=
  let timeWaiting := wait - (t - s.lastCallTime.getD 0)
  match o.maxWait with
  | some m => min timeWaiting (m - (t - s.lastInvokeTime))
  | none => timeWaiting

/-- `trailingEdge(time)`: drop the timer; invoke with the pending arguments
only when `trailing` is set and arguments are pending, otherwise just clear
the pending arguments. -/
def trailingEdge (o : DebounceOptions) (t : Int) (s : DState α) : DState α :=
  let s₁ := { s with timerFire := none }
  if o.trailing && s₁.lastArgs.isSome then invokeFunc t s₁
  else { s₁ with lastArgs := none }

/-- `timerExpired`, run at the timer's scheduled instant: invoke the
trailing edge when due, otherwise restart the timer for the remaining
wait. Does nothing when no timer is live. -/
def dfire (o : DebounceOptions) (wait : Int) (s : DState α) : DState α :=
  match s.timerFire with
  | none => s
  | some f =>
      if shouldInvoke o wait s f then trailingEdge o f s
      else { s with timerFire := some (f + remainingWait o wait s f) }

/-- Whether a live timer is due at or before instant `t`. -/
def dueAt (s : DState α) (t : Int) : Bool :=
  match s.timerFire with
  | some f => decide (f ≤ t)
  | none => false

/-- Run every timer callback that is due at or before instant `t`. Two
`dfire` steps always suffice: a firing either clears the timer or
reschedules it once to an instant at which `shouldInvoke` holds
(`fireDue_not_dueAt` below proves no due timer can remain). -/
def fireDue (o : DebounceOptions) (wait : Int) (t : Int)
    (s : DState α) : DState α :=
  let s₁ := if dueAt s t then dfire o wait s else s
  if dueAt s₁ t then dfire o wait s₁ else s₁

/-- The debounced wrapper itself (`function debounced(...args)`), called at
instant `t` with arguments `a`. -/
def dcall (o : DebounceOptions) (wait : Int) (t : Int) (a : α)
    (s : DState α) : DState α :=
  let isInvoking := shouldInvoke o wait s t
  let s₁ := { s with lastArgs := some a, lastCallTime := some t }
  if isInvoking then
    if s₁.timerFire = none then leadingEdge o wait t s₁
    else
      match o.maxWait with
      | some _ => invokeFunc t { s₁ with timerFire := some (t + wait) }
      | none => s₁
  else if s₁.timerFire = none then { s₁ with timerFire := some (t + wait) }
  else s₁

/-- Process a chronological list of calls, running due timer callbacks
before each call. -/
def runCalls (o : DebounceOptions) (wait : Int)
    (calls : List (Int × α)) (s : DState α) : DState α :=
  calls.foldl (fun s p => dcall o wait p.1 p.2 (fireDue o wait p.1 s)) s

/-- Let all remaining timers run to completion after the last call (two
`dfire` steps always suffice; `settle_timerFire_none` below proves the
resulting state has no live timer). -/
def settle (o : DebounceOptions) (wait : Int) (s : DState α) : DState α :=
  dfire o wait (dfire o wait s)

/-- Process a burst of calls from a fresh wrapper and let it quiet down. -/
def runBurst (o : DebounceOptions) (wait : Int)
    (calls : List (Int × α)) : DState α :=
  settle o wait (runCalls o wait calls dinit)

end DebounceUtils

/-! ## Statement-side predicates and abbreviations used by the theorems -/

/-- A chronological burst: call instants strictly increase and consecutive
calls are separated by strictly less than `wait`. -/
@[reducible]
def burstGaps {α : Type} (wait : Int) (calls : List (Int × α)) : Prop :=
  calls.Chain' (fun p q => p.1 < q.1 ∧ q.1 - p.1 < wait)

/-- Executable check for `burstGaps`, used to certify concrete traces. -/
def burstGapsB {α : Type} (wait : Int) : List (Int × α) → Bool
  | [] => true
  | [_] => true
  | p :: q :: rest =>
      (decide (p.1 < q.1) && decide (q.1 - p.1 < wait))
        && burstGapsB wait (q :: rest)

/-- The mid-burst state of a trailing-only debounced wrapper after a call at
instant `t` with arguments `a`: the call is pending, nothing has been
invoked, and the live timer fires within `(t, t + wait]`. -/
def BurstInv {α : Type} (wait : Int) (s : DState α) (t : Int) (a : α) : Prop :=
  s.lastCallTime = some t ∧ s.lastArgs = some a ∧ s.invocations = [] ∧
    ∃ f, s.timerFire = some f ∧ t < f ∧ f ≤ t + wait

/-- The builder `buildCommand` resolves for a platform: the platform's own
entry when the builder map has one, the `default` entry otherwise. -/
def resolvedBuilder (platform : String) : CommandExecutionParams → String :=
  ((aLookup CommandExecutor.commandBuilders platform).orElse
    (fun _ => aLookup CommandExecutor.commandBuilders "default")).getD
    CommandExecutor.defaultBuilder

/-- The concrete editor registry operations refuting claim C2: add a single
(non-default) editor — which becomes the default as the first editor — then
update it with `isDefault := false`. -/
def c2Ops : List ConfigManager.RegOp :=
  [.add 0 { name := "a", path := "/a", isDefault := false, kind := none },
   .update 1 0 { name := none, path := none, isDefault := some false, kind := none }]

/-- A cache configuration with capacity 1, used to refute claim C4. -/
def capOneConfig : CacheManagerConfig :=
  { settingsCacheTtl := 1000, projectPathCacheTtl := 5000,
    editorStateCacheTtl := 5000, maxCacheSize := 1 }

/-- The cache state refuting claim C4: one entry (the store is at its
capacity of 1) whose access timestamp equals the current instant `5`. -/
def c4State : CMState Nat :=
  CacheManager.set capOneConfig 5 "a" 0 none CacheManager.initState

/-- The continuous-pressure call trace refuting claim C7: calls every 7 ms
(well under `wait = 50`) from instant 0 to instant 133, which spans more
than `maxWait = 120`. -/
def c7Calls : List (Int × Nat) :=
  (List.range 20).map (fun (i : Nat) => ((7 * i : Int), i))

/-- The burst of the C6 spec example: 5 calls 30 ms apart under
`wait = 100`. -/
def c6Calls : List (Int × Nat) :=
  [(0, 0), (30, 1), (60, 2), (90, 3), (120, 4)]

/-- The cache state used to witness the amended claims C1 and C10: the entry
`"k" ↦ 42` stored at instant 0 with a TTL of 100 ms. -/
def c1State : CMState Nat :=
  CacheManager.set defaultCacheConfig 0 "k" 42 (some 100) CacheManager.initState

/-- The registry invariant maintained by every operation: at most one editor
is marked default, editor ids are pairwise distinct, and every id is below
the fresh-id counter. -/
def RegInv (r : Registry) : Prop :=
  ConfigManager.countDefaults r.editors ≤ 1
  ∧ (r.editors.map (fun e => e.id)).Nodup
  ∧ ∀ i ∈ r.editors.map (fun e => e.id), i < r.nextId

/-! ## Association-list lemmas -/

theorem aLookup_aErase_self {β : Type} (l : List (String × β)) (k : String) :
    aLookup (aErase l k) k = none := by
  induction l with
  | nil => rfl
  | cons p t ih =>
      obtain ⟨k₁, v⟩ := p
      by_cases h : k₁ = k
      · simpa [aErase, h] using ih
      · simp [aErase, aLookup, h, ih]

theorem aLookup_aErase_ne {β : Type} (l : List (String × β)) {k k₁ : String}
    (h : k₁ ≠ k) : aLookup (aErase l k) k₁ = aLookup l k₁ := by
  have hkk : ¬ k = k₁ := fun hc => h hc.symm
  induction l with
  | nil => rfl
  | cons p t ih =>
      obtain ⟨k₂, v⟩ := p
      by_cases h₂ : k₂ = k
      · subst h₂
        simp [aErase, aLookup, hkk, ih]
      · by_cases h₃ : k₂ = k₁
        · subst h₃
          simp [aErase, aLookup, h₂]
        · simp [aErase, aLookup, h₂, h₃, ih]

theorem aLookup_aSet_self {β : Type} (l : List (String × β)) (k : String)
    (v : β) : aLookup (aSet l k v) k = some v := by
  induction l with
  | nil => simp [aSet, aLookup]
  | cons p t ih =>
      obtain ⟨k₁, v₁⟩ := p
      by_cases h : k₁ = k
      · simp [aSet, aLookup, h]
      · simp [aSet, aLookup, h, ih]

theorem aLookup_aSet_ne {β : Type} (l : List (String × β)) {k k₁ : String}
    (v : β) (h : k₁ ≠ k) : aLookup (aSet l k v) k₁ = aLookup l k₁ := by
  have hkk : ¬ k = k₁ := fun hc => h hc.symm
  induction l with
  | nil => simp [aSet, aLookup, hkk]
  | cons p t ih =>
      obtain ⟨k₂, v₂⟩ := p
      by_cases h₂ : k₂ = k
      · subst h₂
        simp [aSet, aLookup, hkk]
      · by_cases h₃ : k₂ = k₁
        · subst h₃
          simp [aSet, aLookup, h₂]
        · simp [aSet, aLookup, h₂, h₃, ih]

theorem aLookup_eq_none_iff {β : Type} (l : List (String × β)) (k : String) :
    aLookup l k = none ↔ k ∉ l.map Prod.fst := by
  induction l with
  | nil => simp [aLookup]
  | cons p t ih =>
      obtain ⟨k₁, v⟩ := p
      by_cases h : k₁ = k
      · subst h
        simp [aLookup]
      · have hs : ¬ k = k₁ := fun hc => h hc.symm
        simp [aLookup, h, hs, ih]

theorem aSet_length_absent {β : Type} (l : List (String × β)) (k : String)
    (v : β) (h : aLookup l k = none) : (aSet l k v).length = l.length + 1 := by
  induction l with
  | nil => rfl
  | cons p t ih =>
      obtain ⟨k₁, v₁⟩ := p
      by_cases h₁ : k₁ = k
      · simp [aLookup, h₁] at h
      · simp only [aLookup, h₁, if_false, ite_false] at h
        simp [aSet, h₁, ih h]

theorem aSet_length_present {β : Type} (l : List (String × β)) (k : String)
    (v : β) (h : (aLookup l k).isSome) : (aSet l k v).length = l.length := by
  induction l with
  | nil => simp [aLookup] at h
  | cons p t ih =>
      obtain ⟨k₁, v₁⟩ := p
      by_cases h₁ : k₁ = k
      · simp [aSet, h₁]
      · simp only [aLookup, h₁, if_false, ite_false] at h
        simp [aSet, h₁, ih h]

theorem aSet_keys_present {β : Type} (l : List (String × β)) (k : String)
    (v : β) (h : (aLookup l k).isSome) :
    (aSet l k v).map Prod.fst = l.map Prod.fst := by
  induction l with
  | nil => simp [aLookup] at h
  | cons p t ih =>
      obtain ⟨k₁, v₁⟩ := p
      by_cases h₁ : k₁ = k
      · simp [aSet, h₁]
      · simp only [aLookup, h₁, if_false, ite_false] at h
        simp [aSet, h₁, ih h]

theorem aErase_not_mem {β : Type} (l : List (String × β)) (k : String)
    (h : k ∉ l.map Prod.fst) : aErase l k = l := by
  induction l with
  | nil => rfl
  | cons p t ih =>
      obtain ⟨k₁, v⟩ := p
      simp only [List.map_cons, List.mem_cons, not_or] at h
      have h₁ : ¬ k₁ = k := fun hc => h.1 hc.symm
      simp [aErase, h₁, ih h.2]

theorem aErase_length_mem {β : Type} (l : List (String × β)) (k : String)
    (hmem : k ∈ l.map Prod.fst) (hnd : (l.map Prod.fst).Nodup) :
    (aErase l k).length + 1 = l.length := by
  induction l with
  | nil => simp at hmem
  | cons p t ih =>
      obtain ⟨k₁, v⟩ := p
      simp only [List.map_cons, List.nodup_cons] at hnd
      by_cases h₁ : k₁ = k
      · have : k ∉ t.map Prod.fst := h₁ ▸ hnd.1
        simp [aErase, h₁, aErase_not_mem t k this]
      · simp only [List.map_cons, List.mem_cons] at hmem
        rcases hmem with hmem | hmem
        · exact absurd hmem.symm h₁
        · simp [aErase, h₁, ih hmem hnd.2]

/-! ## Cache TTL semantics (claim C1) -/

/-- C1 (counterexample): the claim says `get` returns absent at the exact
instant `timestamp + ttl` and deletes the entry then; but for the entry
stored at instant 0 with `ttl = 100`, `get` at instant 100 still returns the
value (expiry requires `now - timestamp > ttl`, strictly) and the entry
stays stored. -/
theorem C1_cache_ttl_boundary_counterexample :
    (CacheManager.get 100 "k" c1State).1 = some 42 ∧
    aLookup (CacheManager.get 100 "k" c1State).2.cache "k" ≠ none := by
  decide

/-- C1 (amended): for every stored entry, `get` returns the stored value iff
`now - timestamp ≤ ttl` (so the value is still visible at the exact instant
`timestamp + ttl`); strictly after that instant `get` returns absent and, as
a side effect of that same call, the entry is deleted from both the entry
map and the access-time map. -/
theorem C1_cache_ttl_amended {α : Type} (now : Int) (k : String)
    (s : CMState α) (e : CacheEntry α) (h : aLookup s.cache k = some e) :
    ((CacheManager.get now k s).1 = some e.data ↔ now - e.timestamp ≤ e.ttl)
    ∧ (e.ttl < now - e.timestamp →
        (CacheManager.get now k s).1 = none
        ∧ aLookup (CacheManager.get now k s).2.cache k = none
        ∧ aLookup (CacheManager.get now k s).2.accessTimes k = none) := by
  by_cases hexp : e.ttl < now - e.timestamp
  · have hexp' : CacheManager.isExpired now e = true := by
      simp [CacheManager.isExpired, hexp]
    constructor
    · simp [CacheManager.get, CacheManager.delete, h, hexp']
      omega
    · intro _
      refine ⟨?_, ?_, ?_⟩ <;>
        simp [CacheManager.get, CacheManager.delete, h, hexp',
          aLookup_aErase_self]
  · have hexp' : CacheManager.isExpired now e = false := by
      simp [CacheManager.isExpired]
      omega
    constructor
    · simp [CacheManager.get, h, hexp']
      omega
    · intro hc
      exact absurd hc hexp

/-- Witness for C1 (amended), at the concrete entry of `c1State`: `get` at
instant 50 (within the TTL) returns the value, and `get` at instant 150
(past the TTL) returns absent. -/
theorem C1_cache_ttl_amended_witness :
    (CacheManager.get 50 "k" c1State).1 = some 42 ∧
    (CacheManager.get 150 "k" c1State).1 = none :=
  ⟨((C1_cache_ttl_amended 50 "k" c1State ⟨42, 0, 100, "k"⟩ (by decide)).1).2
      (by decide),
   ((C1_cache_ttl_amended 150 "k" c1State ⟨42, 0, 100, "k"⟩ (by decide)).2
      (by decide)).1⟩

/-! ## `has` frame conditions (claim C10) -/

/-- C10: `has` returns true iff the key is stored and unexpired; on a hit
the whole state (in particular the access-time map and every cache entry) is
unchanged; an expired entry is deleted from both maps as a side effect. -/
theorem C10_has_frame {α : Type} (now : Int) (k : String) (s : CMState α) :
    ((CacheManager.has now k s).1 = true ↔
        ∃ e, aLookup s.cache k = some e ∧ CacheManager.isExpired now e = false)
    ∧ ((CacheManager.has now k s).1 = true → (CacheManager.has now k s).2 = s)
    ∧ (∀ e, aLookup s.cache k = some e → CacheManager.isExpired now e = true →
        (CacheManager.has now k s).1 = false
        ∧ aLookup (CacheManager.has now k s).2.cache k = none
        ∧ aLookup (CacheManager.has now k s).2.accessTimes k = none) := by
  match hl : aLookup s.cache k with
  | none =>
      refine ⟨?_, ?_, ?_⟩
      · simp [CacheManager.has, hl]
      · simp [CacheManager.has, hl]
      · intro e he _
        exact absurd he (by simp)
  | some e =>
      by_cases hexp : CacheManager.isExpired now e = true
      · refine ⟨?_, ?_, ?_⟩
        · simp [CacheManager.has, hl, hexp]
        · simp [CacheManager.has, hl, hexp]
        · intro e₁ he₁ _
          obtain rfl : e = e₁ := by injection he₁
          refine ⟨?_, ?_, ?_⟩ <;>
            simp [CacheManager.has, hl, hexp, CacheManager.delete,
              aLookup_aErase_self]
      · refine ⟨?_, ?_, ?_⟩
        · simp only [Bool.not_eq_true] at hexp
          simp [CacheManager.has, hl, hexp]
        · simp [CacheManager.has, hl, hexp]
        · intro e₁ he₁ hexp₁
          obtain rfl : e = e₁ := by injection he₁
          exact absurd hexp₁ hexp

/-- Witness for C10, at the concrete entry of `c1State`: at instant 5 the
entry is a hit and the state is untouched. -/
theorem C10_has_frame_witness :
    (CacheManager.has 5 "k" c1State).1 = true ∧
    (CacheManager.has 5 "k" c1State).2 = c1State :=
  ⟨by decide, (C10_has_frame 5 "k" c1State).2.1 (by decide)⟩

/-! ## Cache access lemmas shared by the executor claims -/

theorem cacheGet_none {α : Type} (now : Int) (k : String) (s : CMState α)
    (h : aLookup s.cache k = none) : (CacheManager.get now k s).1 = none := by
  simp [CacheManager.get, h]

theorem cacheGet_hit {α : Type} (now : Int) (k : String) (s : CMState α)
    (e : CacheEntry α) (h : aLookup s.cache k = some e)
    (hexp : CacheManager.isExpired now e = false) :
    (CacheManager.get now k s).1 = some e.data := by
  simp [CacheManager.get, h, hexp]

theorem cacheGet_expired {α : Type} (now : Int) (k : String) (s : CMState α)
    (e : CacheEntry α) (h : aLookup s.cache k = some e)
    (hexp : CacheManager.isExpired now e = true) :
    (CacheManager.get now k s).1 = none := by
  simp [CacheManager.get, h, hexp]

theorem cacheSet_lookup_self {α : Type} (cfg : CacheManagerConfig) (now : Int)
    (k : String) (d : α) (ttl : Option Int) (s : CMState α) :
    aLookup (CacheManager.set cfg now k d ttl s).cache k =
      some ⟨d, now,
        (match ttl with
         | some t => if t = 0 then cfg.settingsCacheTtl else t
         | none => cfg.settingsCacheTtl), k⟩ := by
  simp only [CacheManager.set]
  split <;> exact aLookup_aSet_self _ _ _

/-! ## Command construction (claim C3) -/

/-- C3: the exact command strings. On the Unix family (`darwin`/`linux`) the
IntelliJ example yields the `nohup`-wrapped single-quoted editor path with
the double-quoted file path and trailing detach idiom; on `win32` both paths
are double-quoted with embedded backslashes doubled. -/
theorem C3_command_construction :
    CommandExecutor.unixBuilder
      { editor := some
          { id := "e1"
            name := "IDEA"
            path := "/Applications/IntelliJ IDEA CE.app/Contents/MacOS/idea" }
        filePath := "/Users/x/proj/src/main.kt"
        lineNumber := 42
        columnNumber := none }
      = "nohup " ++ squote ++
          "/Applications/IntelliJ IDEA CE.app/Contents/MacOS/idea" ++ squote ++
          " --line 42 \"/Users/x/proj/src/main.kt\" > /dev/null 2>&1 &"
    ∧ CommandExecutor.winBuilder
      { editor := some
          { id := "e2"
            name := "IDEA"
            path := "C:" ++ String.mk [backslashChar] ++ "IDE" ++
              String.mk [backslashChar] ++ "idea64.exe" }
        filePath := "C:" ++ String.mk [backslashChar] ++ "proj" ++
          String.mk [backslashChar] ++ "Main.java"
        lineNumber := 7
        columnNumber := none }
      = "\"C:" ++ String.mk [backslashChar, backslashChar] ++ "IDE" ++
          String.mk [backslashChar, backslashChar] ++
          "idea64.exe\" --line 7 \"C:" ++
          String.mk [backslashChar, backslashChar] ++ "proj" ++
          String.mk [backslashChar, backslashChar] ++ "Main.java\"" := by
  constructor <;> decide

/-! ## Clock skew in `shouldInvoke` (claim C8) -/

/-- C8: whenever the elapsed time since the previous call is negative (the
clock moved backwards), `shouldInvoke` returns true, for any options, wait,
and state. -/
theorem C8_negative_clock_skew {α : Type} (o : DebounceOptions) (wait t lc : Int)
    (s : DState α) (hlc : s.lastCallTime = some lc) (hneg : t - lc < 0) :
    DebounceUtils.shouldInvoke o wait s t = true := by
  simp [DebounceUtils.shouldInvoke, hlc, hneg]

/-- Witness for C8: a wrapper last called at instant 10 and probed at
instant 3 must invoke. -/
theorem C8_negative_clock_skew_witness :
    DebounceUtils.shouldInvoke ⟨false, true, none⟩ 100
      { timerFire := some 110, lastCallTime := some 10, lastInvokeTime := 0,
        lastArgs := some 1, invocations := ([] : List (Int × Option Nat)) } 3
      = true :=
  C8_negative_clock_skew ⟨false, true, none⟩ 100 3 10 _ rfl (by decide)

/-! ## LRU eviction (claim C4) -/

theorem oldestScan_cons (st : Option String × Int) (q : String × Int)
    (t : List (String × Int)) :
    CacheManager.oldestScan st (q :: t) =
      CacheManager.oldestScan (if q.2 < st.2 then (some q.1, q.2) else st) t :=
  rfl

theorem oldestScan_le (l : List (String × Int)) (st : Option String × Int) :
    (CacheManager.oldestScan st l).2 ≤ st.2 ∧
      ∀ p ∈ l, (CacheManager.oldestScan st l).2 ≤ p.2 := by
  induction l generalizing st with
  | nil => simp [CacheManager.oldestScan]
  | cons q t ih =>
      rw [oldestScan_cons]
      by_cases hq : q.2 < st.2
      · rw [if_pos hq]
        refine ⟨le_trans (ih _).1 (by simp [le_of_lt hq]), ?_⟩
        intro p hp
        rcases List.mem_cons.mp hp with rfl | hp
        · exact le_trans (ih _).1 (by simp)
        · exact (ih _).2 p hp
      · rw [if_neg hq]
        refine ⟨(ih st).1, ?_⟩
        intro p hp
        rcases List.mem_cons.mp hp with rfl | hp
        · exact le_trans (ih st).1 (le_of_not_lt hq)
        · exact (ih st).2 p hp

theorem oldestScan_cases (l : List (String × Int)) (st : Option String × Int) :
    CacheManager.oldestScan st l = st ∨
      ∃ p ∈ l, CacheManager.oldestScan st l = (some p.1, p.2) ∧ p.2 < st.2 := by
  induction l generalizing st with
  | nil => simp [CacheManager.oldestScan]
  | cons q t ih =>
      rw [oldestScan_cons]
      by_cases hq : q.2 < st.2
      · rw [if_pos hq]
        rcases ih (some q.1, q.2) with hc | ⟨p, hp, hc, hlt⟩
        · exact Or.inr ⟨q, List.mem_cons_self q t, hc, hq⟩
        · exact Or.inr ⟨p, List.mem_cons_of_mem q hp, hc, lt_trans hlt hq⟩
      · rw [if_neg hq]
        rcases ih st with hc | ⟨p, hp, hc, hlt⟩
        · exact Or.inl hc
        · exact Or.inr ⟨p, List.mem_cons_of_mem q hp, hc, hlt⟩

theorem oldestScan_isSome_mono (l : List (String × Int))
    (st : Option String × Int) (h : st.1.isSome) :
    (CacheManager.oldestScan st l).1.isSome := by
  induction l generalizing st with
  | nil => exact h
  | cons q t ih =>
      rw [oldestScan_cons]
      by_cases hq : q.2 < st.2
      · rw [if_pos hq]
        exact ih _ (by simp)
      · rw [if_neg hq]
        exact ih _ h

theorem oldestScan_isSome (l : List (String × Int)) (st : Option String × Int)
    (h : ∃ p ∈ l, p.2 < st.2) : (CacheManager.oldestScan st l).1.isSome := by
  induction l generalizing st with
  | nil => simp at h
  | cons q t ih =>
      rw [oldestScan_cons]
      by_cases hq : q.2 < st.2
      · rw [if_pos hq]
        exact oldestScan_isSome_mono t _ (by simp)
      · rw [if_neg hq]
        obtain ⟨p, hp, hlt⟩ := h
        rcases List.mem_cons.mp hp with rfl | hp
        · exact absurd hlt hq
        · exact ih st ⟨p, hp, hlt⟩

/-- C4 (counterexample): `c4State` is at its capacity of 1 and `"b"` is a
new key, yet `set` at instant 5 — the very instant the existing entry was
last accessed — evicts nothing and grows the store to size 2, because the
eviction scan only considers access times strictly below `Date.now()`. -/
theorem C4_lru_counterexample :
    CacheManager.size c4State = capOneConfig.maxCacheSize
    ∧ aLookup c4State.cache "b" = none
    ∧ CacheManager.size (CacheManager.set capOneConfig 5 "b" 1 none c4State)
        = capOneConfig.maxCacheSize + 1 := by
  decide

/-- C4 (amended): when the store is at capacity, the inserted key is new,
and at least one recorded access time lies strictly before the current
instant, `set` evicts exactly one entry — one whose access time is minimal
among all recorded access times (hence the globally oldest) — and the store
size afterwards is unchanged; moreover `set` with an already-present key
overwrites in place, evicting nothing. If every access time is at or after
the current instant, no entry is evicted and the store grows beyond
capacity (see the counterexample). -/
theorem C4_lru_amended {α : Type} (cfg : CacheManagerConfig) (now : Int)
    (k : String) (d : α) (ttl : Option Int) (s : CMState α) :
    (s.accessTimes.map Prod.fst = s.cache.map Prod.fst →
     (s.cache.map Prod.fst).Nodup →
     s.cache.length = cfg.maxCacheSize →
     aLookup s.cache k = none →
     (∃ p ∈ s.accessTimes, p.2 < now) →
       (CacheManager.set cfg now k d ttl s).cache.length = cfg.maxCacheSize
       ∧ ∃ ke te, (ke, te) ∈ s.accessTimes ∧ te < now
           ∧ (∀ p ∈ s.accessTimes, te ≤ p.2)
           ∧ ke ≠ k
           ∧ aLookup (CacheManager.set cfg now k d ttl s).cache ke = none
           ∧ (aLookup (CacheManager.set cfg now k d ttl s).cache k).isSome)
    ∧ (∀ e, aLookup s.cache k = some e →
        (CacheManager.set cfg now k d ttl s).cache.length = s.cache.length
        ∧ (CacheManager.set cfg now k d ttl s).cache.map Prod.fst
            = s.cache.map Prod.fst
        ∧ (aLookup (CacheManager.set cfg now k d ttl s).cache k).isSome) := by
  constructor
  · intro hkeys hnd hsize hnew hold
    have hhas : aHas s.cache k = false := by simp [aHas, hnew]
    have hcond : cfg.maxCacheSize ≤ s.cache.length ∧ ¬ aHas s.cache k = true :=
      ⟨le_of_eq hsize.symm, by simp [hhas]⟩
    have hsome : (CacheManager.oldestScan (none, now) s.accessTimes).1.isSome :=
      oldestScan_isSome s.accessTimes (none, now) hold
    rcases oldestScan_cases s.accessTimes (none, now) with hc | ⟨p, hpmem, hc, hlt⟩
    · rw [hc] at hsome
      simp at hsome
    · obtain ⟨ke, te⟩ := p
      have hkemem : ke ∈ s.cache.map Prod.fst := by
        rw [← hkeys]
        exact List.mem_map_of_mem Prod.fst hpmem
      have hknotmem : k ∉ s.cache.map Prod.fst := (aLookup_eq_none_iff _ _).mp hnew
      have hkek : ke ≠ k := fun hc₁ => hknotmem (hc₁ ▸ hkemem)
      have hevict : CacheManager.evictLeastRecentlyUsed now s =
          { cache := aErase s.cache ke
            accessTimes := aErase s.accessTimes ke
            stats := { s.stats with evictions := s.stats.evictions + 1 } } := by
        simp [CacheManager.evictLeastRecentlyUsed, hc, CacheManager.delete]
      have hcache : (CacheManager.set cfg now k d ttl s).cache =
          aSet (aErase s.cache ke) k
            ⟨d, now,
              (match ttl with
               | some t => if t = 0 then cfg.settingsCacheTtl else t
               | none => cfg.settingsCacheTtl), k⟩ := by
        simp only [CacheManager.set, if_pos hcond, hevict]
      have herasefresh : aLookup (aErase s.cache ke) k = none := by
        rw [aLookup_aErase_ne _ (fun hc₁ => hkek hc₁.symm)]
        exact hnew
      refine ⟨?_, ke, te, hpmem, hlt, ?_, hkek, ?_, ?_⟩
      · rw [hcache, aSet_length_absent _ _ _ herasefresh,
          aErase_length_mem s.cache ke hkemem hnd]
        exact hsize
      · intro q hq
        have := (oldestScan_le s.accessTimes (none, now)).2 q hq
        rw [hc] at this
        exact this
      · rw [hcache, aLookup_aSet_ne _ _ hkek, aLookup_aErase_self]
      · rw [hcache, aLookup_aSet_self]
        rfl
  · intro e he
    have hpres : (aLookup s.cache k).isSome := by
      rw [he]
      rfl
    have hhas : aHas s.cache k = true := by simp [aHas, he]
    have hcond : ¬ (cfg.maxCacheSize ≤ s.cache.length ∧ ¬ aHas s.cache k = true) := by
      simp [hhas]
    have hcache : (CacheManager.set cfg now k d ttl s).cache =
        aSet s.cache k
          ⟨d, now,
            (match ttl with
             | some t => if t = 0 then cfg.settingsCacheTtl else t
             | none => cfg.settingsCacheTtl), k⟩ := by
      simp only [CacheManager.set, if_neg hcond]
    refine ⟨?_, ?_, ?_⟩
    · rw [hcache, aSet_length_present _ _ _ hpres]
    · rw [hcache, aSet_keys_present _ _ _ hpres]
    · rw [hcache, aLookup_aSet_self]
      rfl

/-- Witness for C4 (amended), at a concrete capacity-1 store holding the key
`"a"` accessed at instant 0: inserting the new key `"b"` at instant 5 keeps
the size at capacity and evicts `"a"`. -/
theorem C4_lru_amended_witness :
    (CacheManager.set capOneConfig 5 "b" 1 none
        (CacheManager.set capOneConfig 0 "a" 0 none
          CacheManager.initState)).cache.length = capOneConfig.maxCacheSize
    ∧ ∃ ke te,
        (ke, te) ∈ (CacheManager.set capOneConfig 0 "a" (0 : Nat) none
          CacheManager.initState).accessTimes
        ∧ te < 5
        ∧ (∀ p ∈ (CacheManager.set capOneConfig 0 "a" (0 : Nat) none
            CacheManager.initState).accessTimes, te ≤ p.2)
        ∧ ke ≠ "b"
        ∧ aLookup (CacheManager.set capOneConfig 5 "b" 1 none
            (CacheManager.set capOneConfig 0 "a" 0 none
              CacheManager.initState)).cache ke = none
        ∧ (aLookup (CacheManager.set capOneConfig 5 "b" 1 none
            (CacheManager.set capOneConfig 0 "a" 0 none
              CacheManager.initState)).cache "b").isSome :=
  (C4_lru_amended capOneConfig 5 "b" 1 none
      (CacheManager.set capOneConfig 0 "a" 0 none CacheManager.initState)).1
    (by decide) (by decide) (by decide) (by decide)
    ⟨("a", 0), by decide, by decide⟩

/-! ## Builder resolution lemmas (claims C5, C9) -/

theorem builders_default :
    aLookup CommandExecutor.commandBuilders "default" =
      some CommandExecutor.defaultBuilder := rfl

theorem builders_resolve (platform : String) :
    ((aLookup CommandExecutor.commandBuilders platform).orElse
      (fun _ => aLookup CommandExecutor.commandBuilders "default")) =
      some (resolvedBuilder platform) := by
  unfold resolvedBuilder
  cases h : aLookup CommandExecutor.commandBuilders platform with
  | none => simp [h, builders_default]
  | some b => simp [h]

theorem resolvedBuilder_cases (platform : String) :
    resolvedBuilder platform = CommandExecutor.winBuilder ∨
    resolvedBuilder platform = CommandExecutor.unixBuilder ∨
    resolvedBuilder platform = CommandExecutor.defaultBuilder := by
  by_cases h1 : ("win32" : String) = platform
  · left
    simp [resolvedBuilder, CommandExecutor.commandBuilders, aLookup, h1]
  · by_cases h2 : ("darwin" : String) = platform
    · right; left
      simp [resolvedBuilder, CommandExecutor.commandBuilders, aLookup, h1, h2]
    · by_cases h3 : ("linux" : String) = platform
      · right; left
        simp [resolvedBuilder, CommandExecutor.commandBuilders, aLookup, h1, h2, h3]
      · by_cases h4 : ("default" : String) = platform
        · right; right
          simp [resolvedBuilder, CommandExecutor.commandBuilders, aLookup,
            h1, h2, h3, h4]
        · right; right
          simp [resolvedBuilder, CommandExecutor.commandBuilders, aLookup,
            h1, h2, h3, h4, builders_default]

theorem builder_ne_empty (platform : String) (p : CommandExecutionParams) :
    resolvedBuilder platform p ≠ "" := by
  have l0 : ("" : String).length = 0 := by decide
  have l1 : ("\"" : String).length = 1 := by decide
  have l2 : ("nohup " : String).length = 6 := by decide
  have l3 : squote.length = 1 := by decide
  rcases resolvedBuilder_cases platform with h | h | h
  · rw [h]
    intro hc
    have hlen := congrArg String.length hc
    simp only [CommandExecutor.winBuilder, String.length_append, l0, l1] at hlen
    omega
  · rw [h]
    intro hc
    have hlen := congrArg String.length hc
    simp only [CommandExecutor.unixBuilder, String.length_append, l0, l2, l3] at hlen
    omega
  · rw [h]
    intro hc
    have hlen := congrArg String.length hc
    simp only [CommandExecutor.defaultBuilder, String.length_append, l0, l1] at hlen
    omega

theorem buildCommand_of_get_none (cfg : CacheManagerConfig) (platform : String)
    (now : Int) (p : CommandExecutionParams) (s : CMState String)
    (h : (CacheManager.get now
        (CommandExecutor.generateCommandCacheKey platform p) s).1 = none) :
    CommandExecutor.buildCommand cfg platform now p s =
      (some (resolvedBuilder platform p),
       CacheManager.set cfg now
         (CommandExecutor.generateCommandCacheKey platform p)
         (resolvedBuilder platform p) (some 1000)
         (CacheManager.get now
           (CommandExecutor.generateCommandCacheKey platform p) s).2) := by
  simp only [CommandExecutor.buildCommand, h, builders_resolve]

theorem buildCommand_of_get_hit (cfg : CacheManagerConfig) (platform : String)
    (now : Int) (p : CommandExecutionParams) (s : CMState String) (c : String)
    (h : (CacheManager.get now
        (CommandExecutor.generateCommandCacheKey platform p) s).1 = some c)
    (hne : c ≠ "") :
    CommandExecutor.buildCommand cfg platform now p s =
      (some c,
       (CacheManager.get now
         (CommandExecutor.generateCommandCacheKey platform p) s).2) := by
  simp only [CommandExecutor.buildCommand, h, if_neg hne]

/-! ## Command cache keyed by (editor id, platform) (claim C9) -/

/-- C9: the Builder caches a built command under the key
`(editor id, platform)` with a 1000 ms TTL. Starting from a state where the
key is absent, the first `buildCommand` call returns the freshly built
command; a second call with the same editor id on the same platform — even
with a different file path or line number — returns the cached string as
long as `t₁ - t₀ ≤ 1000`, and builds a fresh command from the current
parameters once the TTL has expired. -/
theorem C9_command_cache (cfg : CacheManagerConfig) (platform : String)
    (t₀ t₁ : Int) (p₁ p₂ : CommandExecutionParams) (s₀ : CMState String)
    (hid : CommandExecutor.editorIdOf p₂ = CommandExecutor.editorIdOf p₁)
    (hfresh : aLookup s₀.cache
      (CommandExecutor.generateCommandCacheKey platform p₁) = none) :
    (CommandExecutor.buildCommand cfg platform t₀ p₁ s₀).1
        = some (resolvedBuilder platform p₁)
    ∧ (t₁ - t₀ ≤ 1000 →
        (CommandExecutor.buildCommand cfg platform t₁ p₂
            (CommandExecutor.buildCommand cfg platform t₀ p₁ s₀).2).1
          = some (resolvedBuilder platform p₁))
    ∧ (1000 < t₁ - t₀ →
        (CommandExecutor.buildCommand cfg platform t₁ p₂
            (CommandExecutor.buildCommand cfg platform t₀ p₁ s₀).2).1
          = some (resolvedBuilder platform p₂)) := by
  have hkey : CommandExecutor.generateCommandCacheKey platform p₂ =
      CommandExecutor.generateCommandCacheKey platform p₁ := by
    simp [CommandExecutor.generateCommandCacheKey, hid]
  have hget₀ : (CacheManager.get t₀
      (CommandExecutor.generateCommandCacheKey platform p₁) s₀).1 = none :=
    cacheGet_none _ _ _ hfresh
  have hbc₁ := buildCommand_of_get_none cfg platform t₀ p₁ s₀ hget₀
  have hs₁ : aLookup (CommandExecutor.buildCommand cfg platform t₀ p₁ s₀).2.cache
      (CommandExecutor.generateCommandCacheKey platform p₁) =
      some ⟨resolvedBuilder platform p₁, t₀, 1000,
        CommandExecutor.generateCommandCacheKey platform p₁⟩ := by
    rw [hbc₁]
    have := cacheSet_lookup_self cfg t₀
      (CommandExecutor.generateCommandCacheKey platform p₁)
      (resolvedBuilder platform p₁) (some 1000)
      (CacheManager.get t₀
        (CommandExecutor.generateCommandCacheKey platform p₁) s₀).2
    simpa using this
  refine ⟨by rw [hbc₁], ?_, ?_⟩
  · intro hle
    have hexp : CacheManager.isExpired t₁
        (⟨resolvedBuilder platform p₁, t₀, 1000,
          CommandExecutor.generateCommandCacheKey platform p₁⟩ :
          CacheEntry String) = false := by
      simp only [CacheManager.isExpired]
      simp only [decide_eq_false_iff_not, not_lt]
      omega
    have hget₁ : (CacheManager.get t₁
        (CommandExecutor.generateCommandCacheKey platform p₂)
        (CommandExecutor.buildCommand cfg platform t₀ p₁ s₀).2).1
        = some (resolvedBuilder platform p₁) := by
      rw [hkey]
      exact cacheGet_hit _ _ _ _ hs₁ hexp
    rw [buildCommand_of_get_hit cfg platform t₁ p₂ _ _ hget₁
      (builder_ne_empty platform p₁)]
  · intro hlt
    have hexp : CacheManager.isExpired t₁
        (⟨resolvedBuilder platform p₁, t₀, 1000,
          CommandExecutor.generateCommandCacheKey platform p₁⟩ :
          CacheEntry String) = true := by
      simp only [CacheManager.isExpired]
      simp only [decide_eq_true_eq]
      omega
    have hget₁ : (CacheManager.get t₁
        (CommandExecutor.generateCommandCacheKey platform p₂)
        (CommandExecutor.buildCommand cfg platform t₀ p₁ s₀).2).1 = none := by
      rw [hkey]
      exact cacheGet_expired _ _ _ _ hs₁ hexp
    rw [buildCommand_of_get_none cfg platform t₁ p₂ _ hget₁]

/-- Witness for C9: on `darwin`, building for editor id `"e"` and file
`"/f"` line 1 and then rebuilding 500 ms later for the same editor id but
file `"/g"` line 2 returns the first (cached) command. -/
theorem C9_command_cache_witness :
    (CommandExecutor.buildCommand defaultCacheConfig "darwin" 500
        { editor := some { id := "e", name := "n", path := "/p" }
          filePath := "/g"
          lineNumber := 2
          columnNumber := none }
        (CommandExecutor.buildCommand defaultCacheConfig "darwin" 0
          { editor := some { id := "e", name := "n", path := "/p" }
            filePath := "/f"
            lineNumber := 1
            columnNumber := none }
          CacheManager.initState).2).1
      = some (resolvedBuilder "darwin"
          { editor := some { id := "e", name := "n", path := "/p" }
            filePath := "/f"
            lineNumber := 1
            columnNumber := none }) :=
  (C9_command_cache defaultCacheConfig "darwin" 0 500
      { editor := some { id := "e", name := "n", path := "/p" }
        filePath := "/f"
        lineNumber := 1
        columnNumber := none }
      { editor := some { id := "e", name := "n", path := "/p" }
        filePath := "/g"
        lineNumber := 2
        columnNumber := none }
      CacheManager.initState (by decide) (by decide)).2.1 (by decide)

/-! ## Executor pre-flight failures (claim C5) -/

theorem validate_fail_error (p : CommandExecutionParams)
    (h : (CommandExecutor.validateExecutionParams p).1 = false) :
    ∃ msg, (CommandExecutor.validateExecutionParams p).2 = some msg ∧ msg ≠ "" := by
  cases hp : p.editor with
  | none =>
      refine ⟨"编辑器配置不能为空", ?_, by decide⟩
      simp [CommandExecutor.validateExecutionParams, hp]
  | some ed =>
      by_cases h1 : jsTrim ed.path = ""
      · refine ⟨"编辑器路径不能为空", ?_, by decide⟩
        simp [CommandExecutor.validateExecutionParams, hp, h1]
      · by_cases h2 : jsTrim p.filePath = ""
        · refine ⟨"文件路径不能为空", ?_, by decide⟩
          simp [CommandExecutor.validateExecutionParams, hp, h1, h2]
        · by_cases h3 : p.lineNumber < 1
          · refine ⟨"行号必须大于等于1", ?_, by decide⟩
            simp [CommandExecutor.validateExecutionParams, hp, h1, h2, h3]
          · rw [CommandExecutor.validateExecutionParams] at h
            simp [hp, h1, h2, h3] at h

/-- C5: whenever the parameters are invalid (missing editor, blank editor
path, blank file path, or line number below 1) or the editor path does not
exist on disk, `executeJumpCommand` returns a structured result with
`success = false` and a non-empty error message, no child-process launch is
attempted, and the injected error handler (when set) runs exactly once —
regardless of the platform, spawn oracle, cache state, and clock. -/
theorem C5_executor_failure (cfg : CacheManagerConfig) (platform : String)
    (pathExists : String → Bool) (handlerSet : Bool)
    (spawnOutcome : Except String Int) (now : Int)
    (p : CommandExecutionParams) (s : CMState String)
    (h : (CommandExecutor.validateExecutionParams p).1 = false
         ∨ ∀ ed, p.editor = some ed → pathExists ed.path = false) :
    (CommandExecutor.executeJumpCommand cfg platform pathExists handlerSet
        spawnOutcome now p s).result.success = false
    ∧ (∃ msg, (CommandExecutor.executeJumpCommand cfg platform pathExists
        handlerSet spawnOutcome now p s).result.error = some msg ∧ msg ≠ "")
    ∧ (CommandExecutor.executeJumpCommand cfg platform pathExists handlerSet
        spawnOutcome now p s).launched = false
    ∧ (CommandExecutor.executeJumpCommand cfg platform pathExists handlerSet
        spawnOutcome now p s).handlerCalls
        = (if handlerSet then 1 else 0) := by
  by_cases hv : (CommandExecutor.validateExecutionParams p).1 = false
  · obtain ⟨msg, hmsg, hne⟩ := validate_fail_error p hv
    have hout : CommandExecutor.executeJumpCommand cfg platform pathExists
        handlerSet spawnOutcome now p s =
        { result := { success := false, command := "", executionTime := 0,
                      error := some msg, processId := none }
          launched := false
          handlerCalls := if handlerSet then 1 else 0
          cacheState := s } := by
      simp [CommandExecutor.executeJumpCommand, hv, hmsg]
    rw [hout]
    exact ⟨rfl, ⟨msg, rfl, hne⟩, rfl, rfl⟩
  · have hv' : (CommandExecutor.validateExecutionParams p).1 = true := by
      simpa using hv
    rcases h with h | hpath
    · exact absurd h hv
    · cases hp : p.editor with
      | none =>
          rw [CommandExecutor.validateExecutionParams] at hv'
          simp [hp] at hv'
      | some ed =>
          have hped : pathExists ed.path = false := hpath ed hp
          have hout : CommandExecutor.executeJumpCommand cfg platform pathExists
              handlerSet spawnOutcome now p s =
              { result := { success := false, command := "", executionTime := 0,
                            error := some ("编辑器路径不存在: " ++ ed.path),
                            processId := none }
                launched := false
                handlerCalls := if handlerSet then 1 else 0
                cacheState := s } := by
            simp [CommandExecutor.executeJumpCommand, hv', hp, hped]
          rw [hout]
          refine ⟨rfl, ⟨"编辑器路径不存在: " ++ ed.path, rfl, ?_⟩, rfl, rfl⟩
          intro hc
          have hlen := congrArg String.length hc
          have l4 : ("编辑器路径不存在: " : String).length = 10 := by decide
          simp only [String.length_append, l4] at hlen
          simp at hlen

/-- Witness for C5: a call with line number 0 (invalid) fails without a
launch attempt and runs the set error handler once. -/
theorem C5_executor_failure_witness :
    (CommandExecutor.executeJumpCommand defaultCacheConfig "darwin"
        (fun _ => true) true (Except.ok 7) 0
        { editor := some { id := "e", name := "n", path := "/p" }
          filePath := "/f"
          lineNumber := 0
          columnNumber := none }
        CacheManager.initState).result.success = false
    ∧ (∃ msg, (CommandExecutor.executeJumpCommand defaultCacheConfig "darwin"
        (fun _ => true) true (Except.ok 7) 0
        { editor := some { id := "e", name := "n", path := "/p" }
          filePath := "/f"
          lineNumber := 0
          columnNumber := none }
        CacheManager.initState).result.error = some msg ∧ msg ≠ "")
    ∧ (CommandExecutor.executeJumpCommand defaultCacheConfig "darwin"
        (fun _ => true) true (Except.ok 7) 0
        { editor := some { id := "e", name := "n", path := "/p" }
          filePath := "/f"
          lineNumber := 0
          columnNumber := none }
        CacheManager.initState).launched = false
    ∧ (CommandExecutor.executeJumpCommand defaultCacheConfig "darwin"
        (fun _ => true) true (Except.ok 7) 0
        { editor := some { id := "e", name := "n", path := "/p" }
          filePath := "/f"
          lineNumber := 0
          columnNumber := none }
        CacheManager.initState).handlerCalls = (if true then 1 else 0) :=
  C5_executor_failure defaultCacheConfig "darwin" (fun _ => true) true
    (Except.ok 7) 0
    { editor := some { id := "e", name := "n", path := "/p" }
      filePath := "/f"
      lineNumber := 0
      columnNumber := none }
    CacheManager.initState (Or.inl (by decide))

/-! ## Default-editor invariant (claim C2) -/

theorem countDefaults_nil : ConfigManager.countDefaults [] = 0 := rfl

theorem countDefaults_cons (e : EditorConfig) (t : List EditorConfig) :
    ConfigManager.countDefaults (e :: t) =
      (if e.isDefault then 1 else 0) + ConfigManager.countDefaults t := by
  by_cases h : e.isDefault <;>
    simp [ConfigManager.countDefaults, List.filter, h, Nat.add_comm]

theorem countDefaults_map_clear (l : List EditorConfig) :
    ConfigManager.countDefaults
      (l.map (fun e => { e with isDefault := false })) = 0 := by
  induction l with
  | nil => rfl
  | cons h t ih => simpa [countDefaults_cons] using ih

theorem countDefaults_append_single (l : List EditorConfig) (e : EditorConfig) :
    ConfigManager.countDefaults (l ++ [e]) =
      ConfigManager.countDefaults l + (if e.isDefault then 1 else 0) := by
  induction l with
  | nil => simp [countDefaults_cons, countDefaults_nil]
  | cons h t ih => simp [countDefaults_cons, ih, Nat.add_assoc]

theorem countDefaults_set (l : List EditorConfig) (i : Nat)
    (x y : EditorConfig) (h : l.get? i = some y) :
    ConfigManager.countDefaults (l.set i x) + (if y.isDefault then 1 else 0)
      = ConfigManager.countDefaults l + (if x.isDefault then 1 else 0) := by
  induction l generalizing i with
  | nil => simp at h
  | cons hd t ih =>
      cases i with
      | zero =>
          obtain rfl : hd = y := by simpa using h
          simp only [List.set, countDefaults_cons]
          omega
      | succ i =>
          have h' : t.get? i = some y := by simpa using h
          have := ih i h'
          simp only [List.set, countDefaults_cons]
          omega

theorem countDefaults_clearExcept_set (l : List EditorConfig) (i : Nat)
    (x : EditorConfig) (hi : i < l.length) :
    ConfigManager.countDefaults ((ConfigManager.clearExcept i l).set i x)
      = if x.isDefault then 1 else 0 := by
  induction l generalizing i with
  | nil => simp at hi
  | cons hd t ih =>
      cases i with
      | zero =>
          simp [ConfigManager.clearExcept, List.set, countDefaults_cons,
            countDefaults_map_clear]
      | succ i =>
          have hi' : i < t.length := by simpa using hi
          simp [ConfigManager.clearExcept, List.set, countDefaults_cons, ih i hi']

theorem ids_map_clear (l : List EditorConfig) :
    (l.map (fun e => { e with isDefault := false })).map (fun e => e.id)
      = l.map (fun e => e.id) := by
  induction l with
  | nil => rfl
  | cons h t ih => simp [ih]

theorem ids_set (l : List EditorConfig) (i : Nat) (x y : EditorConfig)
    (h : l.get? i = some y) (hx : x.id = y.id) :
    (l.set i x).map (fun e => e.id) = l.map (fun e => e.id) := by
  induction l generalizing i with
  | nil => simp at h
  | cons hd t ih =>
      cases i with
      | zero =>
          obtain rfl : hd = y := by simpa using h
          simp [List.set, hx]
      | succ i =>
          have h' : t.get? i = some y := by simpa using h
          simp [List.set, ih i h']

theorem ids_clearExcept (l : List EditorConfig) (i : Nat) :
    (ConfigManager.clearExcept i l).map (fun e => e.id)
      = l.map (fun e => e.id) := by
  induction l generalizing i with
  | nil => cases i <;> rfl
  | cons hd t ih =>
      cases i with
      | zero => simp [ConfigManager.clearExcept, ids_map_clear]
      | succ i => simp [ConfigManager.clearExcept, ih i]

theorem clearExcept_get? (l : List EditorConfig) (i : Nat) :
    (ConfigManager.clearExcept i l).get? i = l.get? i := by
  induction l generalizing i with
  | nil => cases i <;> rfl
  | cons hd t ih =>
      cases i with
      | zero => rfl
      | succ i => simpa [ConfigManager.clearExcept] using ih i

theorem countDefaults_setDefault_map (l : List EditorConfig) (eid : Nat)
    (now : Int) (hnd : (l.map (fun e => e.id)).Nodup) :
    ConfigManager.countDefaults (l.map (fun e =>
        if e.id == eid then { e with isDefault := true, updatedAt := now }
        else { e with isDefault := false }))
      = if eid ∈ l.map (fun e => e.id) then 1 else 0 := by
  induction l with
  | nil => rfl
  | cons hd t ih =>
      simp only [List.map_cons, List.nodup_cons] at hnd
      rw [List.map_cons, countDefaults_cons, ih hnd.2]
      by_cases hh : hd.id = eid
      · have hnot : eid ∉ t.map (fun e => e.id) := hh ▸ hnd.1
        rw [if_neg hnot]
        have hhead : (if hd.id == eid then
            { hd with isDefault := true, updatedAt := now }
            else { hd with isDefault := false }) =
            { hd with isDefault := true, updatedAt := now } := by
          simp [hh]
        rw [hhead]
        simp [hh]
      · have hhead : (if hd.id == eid then
            { hd with isDefault := true, updatedAt := now }
            else { hd with isDefault := false }) =
            { hd with isDefault := false } := by
          simp [hh]
        rw [hhead]
        by_cases hmem : eid ∈ t.map (fun e => e.id)
        · simp [hmem, hh, Ne.symm hh]
        · simp [hmem, hh, Ne.symm hh]

theorem countDefaults_filter_le (l : List EditorConfig)
    (p : EditorConfig → Bool) :
    ConfigManager.countDefaults (l.filter p) ≤ ConfigManager.countDefaults l := by
  unfold ConfigManager.countDefaults
  exact ((List.filter_sublist l).filter _).length_le

theorem eq_singleton_of_length_le_one {γ : Type} (l : List γ) (x : γ)
    (h1 : l.length ≤ 1) (h2 : x ∈ l) : l = [x] := by
  match l with
  | [] => simp at h2
  | [a] =>
      obtain rfl : x = a := by simpa using h2
      rfl
  | a :: b :: t => simp at h1

theorem defaults_eq_singleton (l : List EditorConfig) (d : EditorConfig)
    (hc : ConfigManager.countDefaults l ≤ 1) (hm : d ∈ l)
    (hd : d.isDefault = true) : l.filter (fun e => e.isDefault) = [d] :=
  eq_singleton_of_length_le_one _ _ hc (List.mem_filter.mpr ⟨hm, hd⟩)

theorem countDefaults_remaining_zero (l : List EditorConfig) (d : EditorConfig)
    (eid : Nat) (hc : ConfigManager.countDefaults l ≤ 1) (hm : d ∈ l)
    (hd : d.isDefault = true) (hid : d.id = eid) :
    ConfigManager.countDefaults (l.filter (fun e => !(e.id == eid))) = 0 := by
  unfold ConfigManager.countDefaults
  rw [List.filter_filter]
  have h1 : l.filter (fun e => e.isDefault && !(e.id == eid))
      = (l.filter (fun e => e.isDefault)).filter (fun e => !(e.id == eid)) := by
    rw [List.filter_filter]
    congr 1
    funext e
    exact Bool.and_comm _ _
  have h2 : l.filter (fun e => e.isDefault) = [d] :=
    defaults_eq_singleton l d hc hm hd
  have h3 : (!(d.id == eid)) = false := by simp [hid]
  rw [h1, h2]
  simp [List.filter, h3]

theorem addEditor_eq_of (now : Int) (input : NewEditorInput) (r : Registry)
    (hv : ConfigManager.validEditorConfig input.name input.path = true)
    (hdup : r.editors.any (fun e => e.path == input.path) = false) :
    ConfigManager.addEditor now input r =
      { editors :=
          (if input.isDefault then
            r.editors.map (fun e => { e with isDefault := false })
          else r.editors) ++
          [{ id := r.nextId
             name := input.name
             path := input.path
             isDefault := if r.editors.isEmpty then true else input.isDefault
             kind := input.kind.getD (ConfigManager.detectEditorType input.path)
             createdAt := now
             updatedAt := now }]
        nextId := r.nextId + 1 } := by
  unfold ConfigManager.addEditor
  rw [hv, hdup]
  simp

theorem addEditor_inv (now : Int) (input : NewEditorInput) (r : Registry)
    (h : RegInv r) : RegInv (ConfigManager.addEditor now input r) := by
  cases hv : ConfigManager.validEditorConfig input.name input.path with
  | false =>
      unfold ConfigManager.addEditor
      rw [hv]
      simpa using h
  | true =>
      cases hdup : r.editors.any (fun e => e.path == input.path) with
      | true =>
          unfold ConfigManager.addEditor
          rw [hv, hdup]
          simpa using h
      | false =>
          rw [addEditor_eq_of now input r hv hdup]
          obtain ⟨hc, hnd, hb⟩ := h
          have hclearids : (if input.isDefault then
              r.editors.map (fun e => { e with isDefault := false })
            else r.editors).map (fun e => e.id) = r.editors.map (fun e => e.id) := by
            by_cases hd : input.isDefault <;> simp [hd, ids_map_clear]
          have hnotmem : r.nextId ∉ r.editors.map (fun e => e.id) :=
            fun hmem => lt_irrefl _ (hb _ hmem)
          refine ⟨?_, ?_, ?_⟩
          · rw [countDefaults_append_single]
            by_cases hd : input.isDefault
            · rw [if_pos hd, countDefaults_map_clear]
              by_cases hemp : r.editors.isEmpty <;> simp [hemp, hd]
            · rw [if_neg hd]
              by_cases hemp : r.editors.isEmpty
              · have : r.editors = [] := List.isEmpty_iff.mp (by simpa using hemp)
                simp [this, countDefaults_nil]
              · have hemp' : r.editors.isEmpty = false := by
                  simpa using hemp
                simp [hemp', hd]
                exact hc
          · simp only [List.map_append, hclearids]
            rw [List.nodup_append]
            exact ⟨hnd, List.nodup_singleton _, by simpa using hnotmem⟩
          · intro i hi
            simp only [List.map_append, hclearids, List.mem_append] at hi
            rcases hi with hi | hi
            · exact lt_trans (hb i hi) (Nat.lt_succ_self _)
            · show i < r.nextId + 1
              simp at hi
              omega


theorem RegInv_mk (es : List EditorConfig) (n : Nat)
    (h : ConfigManager.countDefaults es ≤ 1
      ∧ (es.map (fun e => e.id)).Nodup
      ∧ ∀ i ∈ es.map (fun e => e.id), i < n) :
    RegInv { editors := es, nextId := n } := h

theorem applyUpdates_id (u : EditorUpdates) (now : Int) (e : EditorConfig) :
    (ConfigManager.applyUpdates u now e).id = e.id := rfl

theorem updateEditor_eq_of (now : Int) (eid : Nat) (u : EditorUpdates)
    (r : Registry) (i : Nat) (original : EditorConfig)
    (hi : r.editors.findIdx? (fun e => e.id == eid) = some i)
    (ho : r.editors.get? i = some original)
    (hv : ConfigManager.validEditorConfig
      (ConfigManager.applyUpdates u now original).name
      (ConfigManager.applyUpdates u now original).path = true) :
    ConfigManager.updateEditor now eid u r =
      { editors :=
          (if (ConfigManager.applyUpdates u now original).isDefault
              && !original.isDefault
           then ConfigManager.clearExcept i r.editors
           else r.editors).set i (ConfigManager.applyUpdates u now original)
        nextId := r.nextId } := by
  unfold ConfigManager.updateEditor
  simp only [hi, ho, hv]
  simp

theorem updateEditor_inv (now : Int) (eid : Nat) (u : EditorUpdates)
    (r : Registry) (h : RegInv r) :
    RegInv (ConfigManager.updateEditor now eid u r) := by
  match hi : r.editors.findIdx? (fun e => e.id == eid) with
  | none =>
      unfold ConfigManager.updateEditor
      simp only [hi]
      exact h
  | some i =>
      match ho : r.editors.get? i with
      | none =>
          unfold ConfigManager.updateEditor
          simp only [hi, ho]
          exact h
      | some original =>
          cases hv : ConfigManager.validEditorConfig
              (ConfigManager.applyUpdates u now original).name
              (ConfigManager.applyUpdates u now original).path with
          | false =>
              unfold ConfigManager.updateEditor
              simp only [hi, ho, hv]
              simpa using h
          | true =>
              rw [updateEditor_eq_of now eid u r i original hi ho hv]
              obtain ⟨hc, hnd, hb⟩ := h
              have hidx : i < r.editors.length :=
                (List.get?_eq_some.mp ho).1
              have hids : ((if ((ConfigManager.applyUpdates u now original).isDefault
                    && !original.isDefault) = true
                  then ConfigManager.clearExcept i r.editors
                  else r.editors).set i
                    (ConfigManager.applyUpdates u now original)).map (fun e => e.id)
                  = r.editors.map (fun e => e.id) := by
                by_cases hcond : ((ConfigManager.applyUpdates u now original).isDefault
                    && !original.isDefault) = true
                · rw [if_pos hcond,
                    ids_set (ConfigManager.clearExcept i r.editors) i
                      (ConfigManager.applyUpdates u now original) original
                      (by rw [clearExcept_get?]; exact ho)
                      (applyUpdates_id u now original),
                    ids_clearExcept]
                · rw [if_neg hcond,
                    ids_set r.editors i
                      (ConfigManager.applyUpdates u now original) original ho
                      (applyUpdates_id u now original)]
              refine RegInv_mk _ _ ⟨?_, ?_, ?_⟩
              · by_cases hcond : ((ConfigManager.applyUpdates u now original).isDefault
                    && !original.isDefault) = true
                · rw [if_pos hcond,
                    countDefaults_clearExcept_set _ _ _ hidx]
                  by_cases hu : (ConfigManager.applyUpdates u now original).isDefault <;>
                    simp [hu]
                · rw [if_neg hcond]
                  have hset := countDefaults_set r.editors i
                    (ConfigManager.applyUpdates u now original) original ho
                  cases hu : (ConfigManager.applyUpdates u now original).isDefault with
                  | false =>
                      rw [hu] at hset
                      cases horig : original.isDefault with
                      | false =>
                          rw [horig] at hset
                          simp at hset
                          omega
                      | true =>
                          rw [horig] at hset
                          simp at hset
                          omega
                  | true =>
                      cases horig : original.isDefault with
                      | false => exact absurd (by simp [hu, horig]) hcond
                      | true =>
                          rw [hu, horig] at hset
                          simp at hset
                          omega
              · rw [hids]
                exact hnd
              · intro j hj
                rw [hids] at hj
                exact hb j hj

theorem ids_setDefault_map (l : List EditorConfig) (eid : Nat) (now : Int) :
    (l.map (fun e =>
        if e.id == eid then { e with isDefault := true, updatedAt := now }
        else { e with isDefault := false })).map (fun e => e.id)
      = l.map (fun e => e.id) := by
  induction l with
  | nil => rfl
  | cons hd t ih =>
      simp only [List.map_cons, ih, List.cons.injEq]
      refine ⟨?_, trivial⟩
      by_cases hh : (hd.id == eid) = true <;> simp [hh]

theorem deleteEditor_inv (eid : Nat) (r : Registry) (h : RegInv r) :
    RegInv (ConfigManager.deleteEditor eid r) := by
  match hf : r.editors.find? (fun e => e.id == eid) with
  | none =>
      unfold ConfigManager.deleteEditor
      simp only [hf]
      exact h
  | some deleted =>
      obtain ⟨hc, hnd, hb⟩ := h
      have hmem : deleted ∈ r.editors := List.mem_of_find?_eq_some hf
      have hid : deleted.id = eid := by
        have := List.find?_some hf
        simpa using this
      have hsub : List.Sublist
          ((r.editors.filter (fun e => !(e.id == eid))).map (fun e => e.id))
          (r.editors.map (fun e => e.id)) :=
        (List.filter_sublist _).map _
      unfold ConfigManager.deleteEditor
      simp only [hf]
      cases hdef : deleted.isDefault with
      | false =>
          rw [if_neg (by simp [hdef])]
          refine RegInv_mk _ _ ⟨?_, ?_, ?_⟩
          · exact le_trans (countDefaults_filter_le _ _) hc
          · exact hnd.sublist hsub
          · intro j hj
            exact hb j (hsub.subset hj)
      | true =>
          rw [if_pos (by simp [hdef])]
          have hzero := countDefaults_remaining_zero r.editors deleted eid hc hmem hdef hid
          match hrem : r.editors.filter (fun e => !(e.id == eid)) with
          | [] =>
              simp only [hrem]
              refine RegInv_mk _ _ ⟨?_, ?_, ?_⟩
              · simp [countDefaults_nil]
              · simp
              · simp
          | hd :: t =>
              rw [hrem] at hzero hsub
              rw [countDefaults_cons] at hzero
              simp only [hrem]
              refine RegInv_mk _ _ ⟨?_, ?_, ?_⟩
              · rw [countDefaults_cons]
                have h0 : ConfigManager.countDefaults t = 0 := by omega
                simp [h0]
              · have hsame : ({ hd with isDefault := true } :: t).map (fun e => e.id)
                    = (hd :: t).map (fun e => e.id) := by simp
                rw [hsame]
                exact hnd.sublist hsub
              · intro j hj
                have hsame : ({ hd with isDefault := true } :: t).map (fun e => e.id)
                    = (hd :: t).map (fun e => e.id) := by simp
                rw [hsame] at hj
                exact hb j (hsub.subset hj)

theorem setDefaultEditor_inv (now : Int) (eid : Nat) (r : Registry)
    (h : RegInv r) : RegInv (ConfigManager.setDefaultEditor now eid r) := by
  obtain ⟨hc, hnd, hb⟩ := h
  unfold ConfigManager.setDefaultEditor
  by_cases hany : r.editors.any (fun e => e.id == eid) = true
  · rw [if_pos hany]
    refine RegInv_mk _ _ ⟨?_, ?_, ?_⟩
    · rw [countDefaults_setDefault_map _ _ _ hnd]
      by_cases hmem : eid ∈ r.editors.map (fun e => e.id) <;> simp [hmem]
    · rw [ids_setDefault_map]
      exact hnd
    · intro j hj
      rw [ids_setDefault_map] at hj
      exact hb j hj
  · rw [if_neg hany]
    exact ⟨hc, hnd, hb⟩

theorem applyOp_inv (r : Registry) (op : ConfigManager.RegOp) (h : RegInv r) :
    RegInv (ConfigManager.applyOp r op) := by
  cases op with
  | add now input => exact addEditor_inv now input r h
  | update now eid u => exact updateEditor_inv now eid u r h
  | delete eid => exact deleteEditor_inv eid r h
  | setDefault now eid => exact setDefaultEditor_inv now eid r h

theorem runOps_inv (ops : List ConfigManager.RegOp) (r : Registry)
    (h : RegInv r) : RegInv (ConfigManager.runOps ops r) := by
  induction ops generalizing r with
  | nil => exact h
  | cons op rest ih => exact ih _ (applyOp_inv r op h)

theorem initRegistry_inv : RegInv ConfigManager.initRegistry :=
  ⟨by decide, List.nodup_nil, by simp [ConfigManager.initRegistry]⟩

/-- C2 (counterexample): after adding a single editor (which, as the first
editor, becomes default) and then updating it with `isDefault := false`, the
registry is non-empty yet no editor is marked default — `updateEditor` only
re-clears other editors when turning the flag on, and nothing re-establishes
a default when the flag is turned off. -/
theorem C2_default_invariant_counterexample :
    (ConfigManager.runOps c2Ops ConfigManager.initRegistry).editors.length = 1
    ∧ ConfigManager.countDefaults
        (ConfigManager.runOps c2Ops ConfigManager.initRegistry).editors = 0 := by
  decide

/-- C2 (amended): after any sequence of addEditor / updateEditor /
deleteEditor / setDefaultEditor operations starting from the empty registry,
at most one EditorConfig has `isDefault = true` (an `updateEditor` that
turns the default editor's flag off leaves a non-empty registry with no
default, so "exactly one" does not hold); and deleting the default editor
promotes the first remaining editor (if any) to default. -/
theorem C2_default_invariant_amended :
    (∀ ops : List ConfigManager.RegOp,
        ConfigManager.countDefaults
          (ConfigManager.runOps ops ConfigManager.initRegistry).editors ≤ 1)
    ∧ (∀ (r : Registry) (eid : Nat) (deleted hd : EditorConfig)
          (t : List EditorConfig),
        r.editors.find? (fun e => e.id == eid) = some deleted →
        deleted.isDefault = true →
        r.editors.filter (fun e => !(e.id == eid)) = hd :: t →
        (ConfigManager.deleteEditor eid r).editors
          = { hd with isDefault := true } :: t) := by
  constructor
  · intro ops
    exact (runOps_inv ops ConfigManager.initRegistry initRegistry_inv).1
  · intro r eid deleted hd t hf hdef hrem
    unfold ConfigManager.deleteEditor
    simp only [hf, hrem, hdef]
    simp

/-- Witness for C2 (amended): the counterexample operation sequence still
satisfies the at-most-one bound, and deleting the default editor from a
concrete two-editor registry promotes the remaining editor. -/
theorem C2_default_invariant_amended_witness :
    ConfigManager.countDefaults
        (ConfigManager.runOps c2Ops ConfigManager.initRegistry).editors ≤ 1
    ∧ (ConfigManager.deleteEditor 0
        { editors :=
            [{ id := 0, name := "a", path := "/a", isDefault := true,
               kind := .custom, createdAt := 0, updatedAt := 0 },
             { id := 1, name := "b", path := "/b", isDefault := false,
               kind := .custom, createdAt := 0, updatedAt := 0 }]
          nextId := 2 }).editors
      = [{ id := 1, name := "b", path := "/b", isDefault := true,
           kind := .custom, createdAt := 0, updatedAt := 0 }] :=
  ⟨C2_default_invariant_amended.1 c2Ops,
   C2_default_invariant_amended.2
     { editors :=
         [{ id := 0, name := "a", path := "/a", isDefault := true,
            kind := .custom, createdAt := 0, updatedAt := 0 },
          { id := 1, name := "b", path := "/b", isDefault := false,
            kind := .custom, createdAt := 0, updatedAt := 0 }]
       nextId := 2 }
     0
     { id := 0, name := "a", path := "/a", isDefault := true,
       kind := .custom, createdAt := 0, updatedAt := 0 }
     { id := 1, name := "b", path := "/b", isDefault := false,
       kind := .custom, createdAt := 0, updatedAt := 0 }
     [] (by decide) (by decide) (by decide)⟩

/-! ## Debounce trailing-only bursts (claim C6) -/

theorem burstGaps_of_B {α : Type} (wait : Int) :
    ∀ calls : List (Int × α), burstGapsB wait calls = true → burstGaps wait calls
  | [], _ => trivial
  | [_], _ => List.Chain.nil
  | p :: q :: rest, h => by
      simp only [burstGapsB, Bool.and_eq_true, decide_eq_true_eq] at h
      exact List.Chain.cons ⟨h.1.1, h.1.2⟩ (burstGaps_of_B wait (q :: rest) h.2)

theorem shouldInvoke_burst_false {α : Type} (wait t lc : Int) (s : DState α)
    (hlc : s.lastCallTime = some lc) (h1 : 0 ≤ t - lc) (h2 : t - lc < wait) :
    DebounceUtils.shouldInvoke ⟨false, true, none⟩ wait s t = false := by
  simp only [DebounceUtils.shouldInvoke, hlc, Bool.or_eq_false_iff,
    decide_eq_false_iff_not, not_le, not_lt]
  exact ⟨⟨by omega, by omega⟩, trivial⟩

theorem dfire_none {α : Type} (o : DebounceOptions) (wait : Int)
    (s : DState α) (h : s.timerFire = none) :
    DebounceUtils.dfire o wait s = s := by
  simp [DebounceUtils.dfire, h]

theorem dfire_reschedule {α : Type} (wait t f : Int) (s : DState α)
    (hf : s.timerFire = some f) (hlc : s.lastCallTime = some t)
    (h1 : t < f) (h2 : f - t < wait) :
    DebounceUtils.dfire ⟨false, true, none⟩ wait s =
      { s with timerFire := some (t + wait) } := by
  have hsi : DebounceUtils.shouldInvoke ⟨false, true, none⟩ wait s f = false :=
    shouldInvoke_burst_false wait f t s hlc (by omega) h2
  have harith : f + (wait - (f - t)) = t + wait := by ring
  simp [DebounceUtils.dfire, hf, hsi, DebounceUtils.remainingWait, hlc, harith]

theorem dfire_invoke_at_wait {α : Type} (wait t : Int) (s : DState α) (a : α)
    (hf : s.timerFire = some (t + wait)) (hlc : s.lastCallTime = some t)
    (ha : s.lastArgs = some a) :
    DebounceUtils.dfire ⟨false, true, none⟩ wait s =
      { s with
          timerFire := none
          lastArgs := none
          lastInvokeTime := t + wait
          invocations := s.invocations ++ [(t + wait, some a)] } := by
  have hsi : DebounceUtils.shouldInvoke ⟨false, true, none⟩ wait s (t + wait)
      = true := by
    simp [DebounceUtils.shouldInvoke, hlc]
  simp [DebounceUtils.dfire, hf, hsi, DebounceUtils.trailingEdge, ha,
    DebounceUtils.invokeFunc]

theorem fireDue_dinit {α : Type} (o : DebounceOptions) (wait t : Int) :
    DebounceUtils.fireDue o wait t (DebounceUtils.dinit (α := α))
      = DebounceUtils.dinit := rfl

theorem burst_first {α : Type} (wait t : Int) (a : α) (hw : 0 < wait) :
    BurstInv wait
      (DebounceUtils.dcall ⟨false, true, none⟩ wait t a DebounceUtils.dinit)
      t a := by
  refine ⟨?_, ?_, ?_, t + wait, ?_, by omega, by omega⟩ <;>
    simp [DebounceUtils.dcall, DebounceUtils.shouldInvoke, DebounceUtils.dinit,
      DebounceUtils.leadingEdge]

theorem burst_step {α : Type} (wait t' : Int) (a' : α) (tk : Int) (ak : α)
    (s : DState α) (hinv : BurstInv wait s tk ak) (hlt : tk < t')
    (hgap : t' - tk < wait) :
    BurstInv wait
      (DebounceUtils.dcall ⟨false, true, none⟩ wait t' a'
        (DebounceUtils.fireDue ⟨false, true, none⟩ wait t' s)) t' a' := by
  obtain ⟨hlc, ha, hinvoc, f, hf, hf1, hf2⟩ := hinv
  have hstate : ∃ g, DebounceUtils.fireDue ⟨false, true, none⟩ wait t' s
      = { s with timerFire := some g } ∧ t' < g ∧ g ≤ tk + wait := by
    by_cases hdue : f ≤ t'
    · have hresch := dfire_reschedule wait tk f s hf hlc hf1 (by omega)
      have hd1 : DebounceUtils.dueAt s t' = true := by
        simp [DebounceUtils.dueAt, hf, hdue]
      have hd2 : DebounceUtils.dueAt
          ({ s with timerFire := some (tk + wait) } : DState α) t' = false := by
        simp [DebounceUtils.dueAt]
        omega
      refine ⟨tk + wait, ?_, by omega, by omega⟩
      simp [DebounceUtils.fireDue, hd1, hresch, hd2]
    · have hd1 : DebounceUtils.dueAt s t' = false := by
        simp [DebounceUtils.dueAt, hf]
        omega
      refine ⟨f, ?_, by omega, hf2⟩
      have : ({ s with timerFire := some f } : DState α) = s := by
        cases s
        simp_all
      simp [DebounceUtils.fireDue, hd1, this]
  obtain ⟨g, hfd, hg1, hg2⟩ := hstate
  rw [hfd]
  have hsi : DebounceUtils.shouldInvoke ⟨false, true, none⟩ wait
      ({ s with timerFire := some g } : DState α) t' = false :=
    shouldInvoke_burst_false wait t' tk _ (by simp [hlc]) (by omega) hgap
  refine ⟨?_, ?_, ?_, g, ?_, hg1, by omega⟩ <;>
    simp [DebounceUtils.dcall, hsi, hinvoc]

theorem burst_settle {α : Type} (wait tn : Int) (an : α) (s : DState α)
    (hinv : BurstInv wait s tn an) :
    (DebounceUtils.settle ⟨false, true, none⟩ wait s).invocations
      = [(tn + wait, some an)] := by
  obtain ⟨hlc, ha, hinvoc, f, hf, hf1, hf2⟩ := hinv
  by_cases hfw : f = tn + wait
  · subst hfw
    have h1 := dfire_invoke_at_wait wait tn s an hf hlc ha
    unfold DebounceUtils.settle
    rw [h1, dfire_none _ _ _ (by simp)]
    simp [hinvoc]
  · have h1 := dfire_reschedule wait tn f s hf hlc hf1 (by omega)
    have h2 := dfire_invoke_at_wait wait tn
      ({ s with timerFire := some (tn + wait) } : DState α) an
      (by simp) (by simp [hlc]) (by simp [ha])
    unfold DebounceUtils.settle
    rw [h1, h2]
    simp [hinvoc]

theorem burst_run {α : Type} (wait : Int) (rest : List (Int × α)) :
    ∀ (s : DState α) (t : Int) (a : α), BurstInv wait s t a →
      List.Chain (fun p q => p.1 < q.1 ∧ q.1 - p.1 < wait) (t, a) rest →
      BurstInv wait
        (rest.foldl (fun s p =>
          DebounceUtils.dcall ⟨false, true, none⟩ wait p.1 p.2
            (DebounceUtils.fireDue ⟨false, true, none⟩ wait p.1 s)) s)
        (rest.getLastD (t, a)).1 (rest.getLastD (t, a)).2 := by
  induction rest with
  | nil =>
      intro s t a hinv _
      simpa using hinv
  | cons q rest ih =>
      intro s t a hinv hch
      obtain ⟨hR, hch'⟩ := List.chain_cons.mp hch
      rw [List.foldl_cons, List.getLastD_cons]
      exact ih _ q.1 q.2 (burst_step wait q.1 q.2 t a s hinv hR.1 hR.2) hch'

theorem getLast_cons_eq_getLastD {γ : Type} (c : γ) (l : List γ)
    (h : c :: l ≠ []) : (c :: l).getLast h = l.getLastD c := by
  induction l generalizing c with
  | nil => rfl
  | cons b t ih =>
      rw [List.getLastD_cons]
      rw [List.getLast_cons (by simp)]
      exact ih b (by simp)

/-- C6: for a trailing-only debounced wrapper (`leading = false`,
`trailing = true`, no `maxWait`), any chronological burst of `n ≥ 1` calls
whose consecutive gaps are all strictly below `wait` produces exactly one
invocation of the wrapped function, at instant `lastCall + wait` (after the
burst quiets down), carrying the arguments of the final call. -/
theorem C6_debounce_trailing {α : Type} (wait : Int) (hw : 0 < wait)
    (calls : List (Int × α)) (hne : calls ≠ [])
    (hch : burstGaps wait calls) :
    (DebounceUtils.runBurst ⟨false, true, none⟩ wait calls).invocations
      = [((calls.getLast hne).1 + wait, some (calls.getLast hne).2)] := by
  match calls, hne with
  | c :: rest, hne =>
      obtain ⟨t₁, a₁⟩ := c
      have hch' : List.Chain (fun p q => p.1 < q.1 ∧ q.1 - p.1 < wait)
          (t₁, a₁) rest := hch
      have h1 := burst_first wait t₁ a₁ hw
      have h2 := burst_run wait rest _ t₁ a₁ h1 hch'
      unfold DebounceUtils.runBurst DebounceUtils.runCalls
      rw [List.foldl_cons, fireDue_dinit]
      rw [getLast_cons_eq_getLastD]
      exact burst_settle wait _ _ _ h2

/-- Witness for C6, at the spec's own example: 5 calls 30 ms apart with
`wait = 100` invoke exactly once, at instant 220, with the final call's
arguments. -/
theorem C6_debounce_trailing_witness :
    (DebounceUtils.runBurst ⟨false, true, none⟩ 100 c6Calls).invocations
      = [(220, some 4)] := by
  rw [C6_debounce_trailing 100 (by decide) c6Calls (by decide)
    (burstGaps_of_B 100 c6Calls (by decide))]
  decide

/-! ## maxWait forcing (claim C7) -/

/-- C7 (counterexample): with `leading = false` and `trailing = false`,
continuous calling pressure (gaps of 7 ms, far below `wait = 50`) over a
133 ms trace — longer than `maxWait = 120` — produces no invocation at all:
when the deferral bound is reached, `timerExpired` reaches `trailingEdge`,
which only invokes when `trailing` is set, and `leadingEdge` only invokes
when `leading` is set; so the claim's "regardless of leading/trailing
state" is false. -/
theorem C7_maxwait_counterexample :
    burstGaps 50 c7Calls
    ∧ (c7Calls.getLastD (0, 0)).1 - (c7Calls.headD (0, 0)).1 = 133
    ∧ (DebounceUtils.runBurst ⟨false, false, some 120⟩ 50 c7Calls).invocations
        = [] :=
  ⟨burstGaps_of_B 50 c7Calls (by decide), by decide, by decide⟩

/-- C7 (amended): with `trailing = true` (the default), the forced
invocation at the `maxWait` boundary does occur: whenever the live timer
fires at an instant `f` with `f - lastInvokeTime ≥ maxWait` and arguments
pending, the wrapped function is invoked at exactly `f` and the timer is
cleared. With both `leading = false` and `trailing = false` no invocation
occurs at all (see the counterexample), so the bound holds only when at
least one edge is enabled. -/
theorem C7_maxwait_amended {α : Type} (o : DebounceOptions) (wait m f : Int)
    (s : DState α) (a : α) (htr : o.trailing = true) (hm : o.maxWait = some m)
    (hf : s.timerFire = some f) (ha : s.lastArgs = some a)
    (hforce : m ≤ f - s.lastInvokeTime) :
    (DebounceUtils.dfire o wait s).invocations
        = s.invocations ++ [(f, some a)]
    ∧ (DebounceUtils.dfire o wait s).lastInvokeTime = f
    ∧ (DebounceUtils.dfire o wait s).timerFire = none := by
  have hsi : DebounceUtils.shouldInvoke o wait s f = true := by
    unfold DebounceUtils.shouldInvoke
    cases hlc : s.lastCallTime with
    | none => rfl
    | some lc => simp [hm, hforce]
  refine ⟨?_, ?_, ?_⟩ <;>
    simp [DebounceUtils.dfire, hf, hsi, DebounceUtils.trailingEdge, htr, ha,
      DebounceUtils.invokeFunc]

/-- Witness for C7 (amended): a trailing-enabled wrapper whose timer fires
at instant 120 with `lastInvokeTime = 0` and `maxWait = 120` invokes at
exactly 120. -/
theorem C7_maxwait_amended_witness :
    (DebounceUtils.dfire ⟨false, true, some 120⟩ 50
        { timerFire := some 120, lastCallTime := some 110, lastInvokeTime := 0,
          lastArgs := some 11,
          invocations := ([] : List (Int × Option Nat)) }).invocations
      = [(120, some 11)]
    ∧ (DebounceUtils.dfire ⟨false, true, some 120⟩ 50
        { timerFire := some 120, lastCallTime := some 110, lastInvokeTime := 0,
          lastArgs := some 11,
          invocations := ([] : List (Int × Option Nat)) }).lastInvokeTime = 120 :=
  ⟨(C7_maxwait_amended ⟨false, true, some 120⟩ 50 120 120 _ 11 rfl rfl rfl rfl
      (by decide)).1,
   (C7_maxwait_amended ⟨false, true, some 120⟩ 50 120 120 _ 11 rfl rfl rfl rfl
      (by decide)).2.1⟩
